import Mathlib

/-!
# cr3: a dual-LFSR keystream generator

A shallow embedding of `cr3.c` and theorems about it.

Conventions of the embedding:

* `unsigned long` is the 64-bit type of an LP64 platform: values are `Nat`,
  and the results of `+` and `<<` are reduced `% 2 ^ 64`.
* `int` is a 32-bit two's complement type: values are `Int`.
* the two file-scope registers `ShiftRegistera`, `ShiftRegisterb` are passed
  explicitly: a step maps the register to the new register and the returned
  bit.
* C strings are `List Char` without the terminating NUL.
-/

namespace Cr3

/-! ## Machine integers -/

/-- The number of values of an `unsigned long`. -/
def ULONG_MOD : Nat := 2 ^ 64

/-- Conversion of an `int` to `unsigned long` (the usual arithmetic
conversion applied to `n` in `n < precount + 109`). -/
def toULong (n : Int) : Nat := (n % (2 : Int) ^ 64).toNat

/-- The value of an `int` after `n++`.  The increment of `INT_MAX` is not
defined by the C standard; it is modelled as the two's complement wrap-around
to `INT_MIN`, which is what the unoptimised build of the header comment
(`cc -o cr3 cr3.c -lm -Wall`) does. -/
def incrInt (n : Int) : Int := (n + 1 + (2 : Int) ^ 31) % (2 : Int) ^ 32 - (2 : Int) ^ 31

/-! ## The two generators -/

/-- Generator A, taps (32,7,5,2,1): the register after the call and the
returned `int`. -/
def LFSRa (ShiftRegistera : Nat) : Nat × Nat :=
  let r := ((((((ShiftRegistera >>> 31)
            ^^^ (ShiftRegistera >>> 6)
            ^^^ (ShiftRegistera >>> 4)
            ^^^ (ShiftRegistera >>> 1)
            ^^^ ShiftRegistera))
            &&& 0x00000001)
            <<< 31) % ULONG_MOD)
            ||| (ShiftRegistera >>> 1)
  (r, r &&& 0x00000001)

/-- Generator B, taps (24,4,3,1,0): the register after the call and the
returned `int`. -/
def LFSRb (ShiftRegisterb : Nat) : Nat × Nat :=
  let r := ((((((ShiftRegisterb >>> 23)
            ^^^ (ShiftRegisterb >>> 3)
            ^^^ (ShiftRegisterb >>> 2)
            ^^^ ShiftRegisterb))
            &&& 0x00000001)
            <<< 23) % ULONG_MOD)
            ||| (ShiftRegisterb >>> 1)
  (r, r &&& 0x00000001)

/-- The register after `k` calls of a generator. -/
def stepN (step : Nat → Nat × Nat) : Nat → Nat → Nat
  | 0, r => r
  | k + 1, r => stepN step k (step r).1

/-! ## Key derivation -/

/-- The value of a character as a digit in base 16, as `strtoul` reads it. -/
def hexVal (c : Char) : Option Nat :=
  if '0'.toNat ≤ c.toNat ∧ c.toNat ≤ '9'.toNat then some (c.toNat - '0'.toNat)
  else if 'a'.toNat ≤ c.toNat ∧ c.toNat ≤ 'f'.toNat then some (c.toNat - 'a'.toNat + 10)
  else if 'A'.toNat ≤ c.toNat ∧ c.toNat ≤ 'F'.toNat then some (c.toNat - 'A'.toNat + 10)
  else none

/-- The characters `isspace` accepts in the C locale. -/
def isSpace (c : Char) : Bool :=
  c = ' ' || c = '\t' || c = '\n' || c = Char.ofNat 11 || c = Char.ofNat 12 || c = '\r'

/-- The digit loop of `strtoul` in base 16: the accumulated value, saturating
at `ULONG_MAX`, up to the first character that is not a hex digit. -/
def hexDigits : Nat → List Char → Nat
  | acc, [] => acc
  | acc, c :: cs =>
    match hexVal c with
    | some d => hexDigits (min (acc * 16 + d) (ULONG_MOD - 1)) cs
    | none => acc

/-- Drops the optional `0x` or `0X` prefix of a base 16 number. -/
def dropHexPrefix : List Char → List Char
  | '0' :: 'x' :: cs => cs
  | '0' :: 'X' :: cs => cs
  | cs => cs

/-- The library call `strtoul(s, 0, 16)`: leading white space, an optional
sign, an optional `0x`, then hex digits; a `-` negates in `unsigned long`. -/
def strtoul16 (s : List Char) : Nat :=
  match s.dropWhile isSpace with
  | '-' :: cs => (ULONG_MOD - hexDigits 0 (dropHexPrefix cs)) % ULONG_MOD
  | '+' :: cs => hexDigits 0 (dropHexPrefix cs)
  | cs => hexDigits 0 (dropHexPrefix cs)

/-- The read `argv[1][i]`: a character of the key, the terminating NUL right
after it, and nothing beyond (the read is outside the string). -/
def keyChar (key : List Char) (i : Nat) : Option Char :=
  if i < key.length then key[i]?
  else if i = key.length then some (Char.ofNat 0)
  else none

/-- The reads `argv[1][i]` for the positions `i` of a list, in order. -/
def readAll (key : List Char) : List Nat → Option (List Char)
  | [] => some []
  | i :: rest =>
    match keyChar key i, readAll key rest with
    | some c, some cs => some (c :: cs)
    | _, _ => none

/-- The 8 characters copied into `cntval` or `keyval`, cut at the first NUL as
every C string is. -/
def pick (key : List Char) (idx : List Nat) : Option (List Char) :=
  (readAll key idx).map (fun cs => cs.takeWhile (fun c => c ≠ Char.ofNat 0))

/-- The positions copied into `cntval` (lines 116-117). -/
def cntIdx : List Nat := [0, 1, 2, 3, 4, 5, 6, 7]

/-- The positions copied into `keyval` for generator A (lines 122-123). -/
def keyIdxA : List Nat := [12, 14, 10, 11, 8, 13, 9, 15]

/-- The positions copied into `keyval` for generator B (lines 128-129). -/
def keyIdxB : List Nat := [11, 14, 8, 15, 13, 12, 15, 14]

/-- The three values `precount`, `initvala`, `initvalb` derived from the key. -/
structure Derived where
  precount : Nat
  initvala : Nat
  initvalb : Nat
  deriving DecidableEq

/-- Lines 115-131 of `main`. -/
def derive (key : List Char) : Option Derived := do
  let cntval ← pick key cntIdx
  let precount := strtoul16 cntval
  let keyvalA ← pick key keyIdxA
  let initvala := strtoul16 keyvalA
  let keyvalB ← pick key keyIdxB
  let initvalb := strtoul16 keyvalB
  pure { precount := precount, initvala := initvala, initvalb := initvalb }

/-! ## Warm-up -/

/-- The loop `for (n=0; n<bound; n++) step();` with `n` an `int` and `bound`
an `unsigned long`: the register when the loop is left, or `none` when the
fuel is used up first. -/
def warmLoop (step : Nat → Nat × Nat) (bound : Nat) : Nat → Int → Nat → Option Nat
  | 0, _, _ => none
  | fuel + 1, n, r =>
    if toULong n < bound then warmLoop step bound fuel (incrInt n) (step r).1
    else some r

/-- More iterations than an `int` counter has values. -/
def WARM_FUEL : Nat := 2 ^ 32 + 1

/-- Line 136: `for (n=0; n<precount+109; n++) LFSRa();` -/
def warmA (d : Derived) : Option Nat :=
  warmLoop LFSRa ((d.precount + 109) % ULONG_MOD) WARM_FUEL 0 d.initvala

/-- Line 137: `for (n=0; n<precount+416; n++) LFSRb();` -/
def warmB (d : Derived) : Option Nat :=
  warmLoop LFSRb ((d.precount + 416) % ULONG_MOD) WARM_FUEL 0 d.initvalb

/-! ## Combiner -/

/-- The loop `for (n=15; n!=-1; n--) { val = step(); num += pow(2,n) * val; }`
entered with `n + 1 = k`: the register and `num` when it is left.  The
product and the sum are computed in `double`, where they are exact (integers
below `2 ^ 16`), and stored back into the `int`. -/
def drawLoop (step : Nat → Nat × Nat) : Nat → Nat → Nat → Nat × Nat
  | 0, r, num => (r, num)
  | n + 1, r, num =>
    let (r', val) := step r
    drawLoop step n r' (num + 2 ^ n * val)

/-- The bits returned by `k` consecutive calls of a generator, first call
first. -/
def outBits (step : Nat → Nat × Nat) : Nat → Nat → List Nat
  | 0, _ => []
  | k + 1, r => (step r).2 :: outBits step k (step r).1

/-- The text `printf("%d", v)` writes for a value that is not negative. -/
def printfD (v : Nat) : List Char := Nat.toDigits 10 v

/-- The text `printf("%x", v)` writes. -/
def printfX (v : Nat) : List Char := Nat.toDigits 16 v

/-- The text `printf("%c", v)` writes. -/
def printfC (v : Nat) : List Char := [Char.ofNat (v % 256)]

/-- Lines 162-164: what is written for `num` under the program name `name`. -/
def showNum (name : List Char) (num : Nat) : List Char :=
  (if name = "cr3n".toList then printfD (num % 10) else []) ++
  (if name = "cr3l".toList then printfC (num % 26 + 'A'.toNat) else []) ++
  (if name = "cr3h".toList then printfX (num % 16) else [])

/-- The variables that live across the output loops. -/
structure Loop where
  ra : Nat
  rb : Nat
  pspace : Int
  deriving DecidableEq

/-- One pass through the body of `while (cnt < 25)`, lines 150-170: the
variables afterwards and the text written. -/
def symbolStep (name : List Char) (s : Loop) : Loop × List Char :=
  let (ra, numa) := drawLoop LFSRa 16 s.ra 0
  let (rb, numb) := drawLoop LFSRb 16 s.rb 0
  let num := numa ^^^ numb
  let txt := showNum name num
  let pspace := s.pspace - 1
  if pspace = 0 then ({ ra := ra, rb := rb, pspace := 5 }, txt ++ [' '])
  else ({ ra := ra, rb := rb, pspace := pspace }, txt)

/-- The loop `while (cnt < 25)` entered with `25 - cnt = k`. -/
def lineLoop (name : List Char) : Nat → Loop → Loop × List Char
  | 0, s => (s, [])
  | k + 1, s =>
    let (s1, txt) := symbolStep name s
    let (s2, rest) := lineLoop name k s1
    (s2, txt ++ rest)

/-- The loop `while (total < maxgroups)` entered with `maxgroups - total = k`
(`cnt` is 0 at every entry of the body). -/
def blockLoop (name : List Char) : Nat → Loop → List Char
  | 0, _ => []
  | k + 1, s =>
    let (s1, line) := lineLoop name 25 s
    line ++ ['\n'] ++ blockLoop name k s1

/-- The variables when the loop `while (total < maxgroups)`, entered with
`maxgroups - total = k`, is left. -/
def blockLoopEnd (name : List Char) : Nat → Loop → Loop
  | 0, s => s
  | k + 1, s => blockLoopEnd name k (lineLoop name 25 s).1

/-! ## The program -/

/-- The decimal digits `atoi` reads, up to the first other character. -/
def decDigits : Nat → List Char → Nat
  | acc, [] => acc
  | acc, c :: cs =>
    if '0'.toNat ≤ c.toNat ∧ c.toNat ≤ '9'.toNat then
      decDigits (acc * 10 + (c.toNat - '0'.toNat)) cs
    else acc

/-- The library call `atoi`: white space, an optional sign, decimal digits.
A value that does not fit an `int` is reduced to 32 bits. -/
def atoi (s : List Char) : Int :=
  let v : Int :=
    match s.dropWhile isSpace with
    | '-' :: cs => - (decDigits 0 cs : Int)
    | '+' :: cs => (decDigits 0 cs : Int)
    | cs => (decDigits 0 cs : Int)
  (v + (2 : Int) ^ 31) % (2 : Int) ^ 32 - (2 : Int) ^ 31

/-- The path without its trailing slashes. -/
def stripSlashes (p : List Char) : List Char :=
  (p.reverse.dropWhile (fun c => c = '/')).reverse

/-- The library call `basename` of `libgen.h`: the last component of a path. -/
def basename (path : List Char) : List Char :=
  if path = [] then ['.']
  else
    let p := stripSlashes path
    if p = [] then ['/']
    else (p.reverse.takeWhile (fun c => c ≠ '/')).reverse

/-- The exit status a parent process sees for `exit(code)`. -/
def exitStatus (code : Int) : Nat := (code % 256).toNat

/-- How a run ends. -/
inductive Outcome where
  /-- The process called `exit`: what it wrote to standard output and to the
  error stream, and its exit status. -/
  | exited (stdout : List Char) (stderr : List Char) (status : Nat)
  /-- The key is so short that `argv[1][i]` reads outside the string. -/
  | badRead
  /-- A warm-up loop did not end within `WARM_FUEL` iterations. -/
  | outOfFuel
  deriving DecidableEq

/-- The message of line 96. -/
def nameMsg : List Char := "Please use cr3h, cr3l or cr3n \n".toList

/-- The message of lines 101-105. -/
def usageMsg (argv0 : List Char) : List Char :=
  "Format: ".toList ++ argv0 ++
    " [32 bit (hex) key] [optional: # of blocks of 25 (default 20)]\n".toList ++
  ("cr3n produces numeric random characters [0-9], ".toList ++
    "cr3l produces alpha random characters [A-Z]\n".toList) ++
  "and cr3h produces random hexidecimal values [0-f]\n".toList ++
  "Example: ".toList ++ argv0 ++ " 0011223380a0f0ed 5 \n".toList ++
  "will generate a key 125 chars long using the hex key 0011223380a0f0ed \n".toList

/-- The message of lines 140-141. -/
def zeroMsg : List Char :=
  "\nWarning: the key values MUST not be 0. Please run".toList ++
  "\nagain with a different key value.\n".toList

/-- The function `main`; `argv0` is `argv[0]` and `args` the arguments after
it, so that `argc = 1 + args.length`. -/
def main (argv0 : List Char) (args : List (List Char)) : Outcome :=
  let argc := 1 + args.length
  if basename argv0 = "cr3".toList then .exited [] nameMsg (exitStatus 0)
  else if argc < 2 ∨ argc > 3 then .exited [] (usageMsg argv0) (exitStatus (-1))
  else
    let maxgroups : Int := if argc = 3 then atoi (args.getD 1 []) else 20
    match derive (args.getD 0 []) with
    | none => .badRead
    | some d =>
      match warmA d, warmB d with
      | some ra, some rb =>
        if ra = 0 ∨ rb = 0 then .exited [] zeroMsg (exitStatus 0)
        else
          .exited (blockLoop (basename argv0) maxgroups.toNat { ra := ra, rb := rb, pspace := 5 })
            [] (exitStatus 0)
      | _, _ => .outOfFuel

/-! ## Specification-side readings -/

/-- The feedback bit of generator A as the specification words it: the XOR
of the register bits 31, 6, 4, 1 and 0. -/
def feedbackA (r : Nat) : Bool :=
  Bool.xor (Bool.xor (Bool.xor (Bool.xor (r.testBit 31) (r.testBit 6)) (r.testBit 4)) (r.testBit 1)) (r.testBit 0)

/-- The feedback bit of generator B as the specification words it: the XOR
of the register bits 23, 3, 2 and 0. -/
def feedbackB (r : Nat) : Bool :=
  Bool.xor (Bool.xor (Bool.xor (r.testBit 23) (r.testBit 3)) (r.testBit 2)) (r.testBit 0)

/-- Big-endian packing as the specification words it: `num = num*2 + bit`
from 0, first bit first. -/
def packFold (bits : List Nat) : Nat := bits.foldl (fun num b => num * 2 + b) 0

/-- Big-endian packing of 16 bits as a sum: the bit at place `i` weighs
`2 ^ (15 - i)`. -/
def packSum (bits : List Nat) : Nat := ∑ i in Finset.range 16, bits.getD i 0 * 2 ^ (15 - i)

/-- The Digit-mode character of a value: `'0' + d`. -/
def digitSym (d : Nat) : Char := Char.ofNat ('0'.toNat + d)

/-- The Letter-mode character of a value: `'A' + d`. -/
def letterSym (d : Nat) : Char := Char.ofNat ('A'.toNat + d)

/-- The Hex-mode character of a value: its lowercase hex digit. -/
def hexSym (d : Nat) : Char := "0123456789abcdef".toList.getD d '0'

/-- A key is 16 hex digits with the digit values `d 0`, ..., `d 15`. -/
def IsHexKey (key : List Char) (d : Nat → Nat) : Prop :=
  key.length = 16 ∧ ∀ i, i < 16 → key[i]?.bind hexVal = some (d i)

/-- The digit values of the key `0011223380a0f0ed`. -/
def exampleDigits (i : Nat) : Nat :=
  [0, 0, 1, 1, 2, 2, 3, 3, 8, 0, 10, 0, 15, 0, 14, 13].getD i 0

/-- The digit values of the key `0000000000000000`. -/
def zeroDigits (_ : Nat) : Nat := 0

/-- The `int` counter after `k` increments from 0, `k ≤ 2 ^ 31`. -/
def counterAt (k : Nat) : Int := if k < 2 ^ 31 then (k : Int) else (k : Int) - (2 : Int) ^ 32

/-- The digit values of the keys `000000000000000a` and `000000000000000A`. -/
def lastTenDigits (i : Nat) : Nat := if i = 15 then 10 else 0

/-- The text written for the symbol number `i` (from 0) of a run whose
registers are `ra` and `rb` when the warm-up ends: each generator has been
called `16 * i` times before the symbol is drawn. -/
def symAt (name : List Char) (ra rb i : Nat) : List Char :=
  showNum name ((drawLoop LFSRa 16 (stepN LFSRa (16 * i) ra) 0).2
    ^^^ (drawLoop LFSRb 16 (stepN LFSRb (16 * i) rb) 0).2)

/-- A group: the five symbols from number `i` on, then one space. -/
def groupText (name : List Char) (ra rb i : Nat) : List Char :=
  symAt name ra rb i ++ symAt name ra rb (i + 1) ++ symAt name ra rb (i + 2)
    ++ symAt name ra rb (i + 3) ++ symAt name ra rb (i + 4) ++ [' ']

/-- The line number `j` (from 0): five groups, then a newline. -/
def lineText (name : List Char) (ra rb j : Nat) : List Char :=
  groupText name ra rb (25 * j) ++ groupText name ra rb (25 * j + 5)
    ++ groupText name ra rb (25 * j + 10) ++ groupText name ra rb (25 * j + 15)
    ++ groupText name ra rb (25 * j + 20) ++ ['\n']

/-- The first `n` lines. -/
def pageText (name : List Char) (ra rb : Nat) : Nat → List Char
  | 0 => []
  | n + 1 => pageText name ra rb n ++ lineText name ra rb n

/-- The variables before the symbol number `i` is drawn. -/
def loopAt (ra rb i : Nat) (pspace : Int) : Loop :=
  { ra := stepN LFSRa (16 * i) ra, rb := stepN LFSRb (16 * i) rb, pspace := pspace }

/-! ## Lemmas on the generators -/

theorem and_one_eq_toNat (x : Nat) : x &&& 1 = (x.testBit 0).toNat := by
  rw [Nat.and_one_is_mod, Nat.testBit_zero]
  rcases Nat.mod_two_eq_zero_or_one x with h | h <;> simp [h]

theorem testBit_zero_shiftRight (x k : Nat) : (x >>> k).testBit 0 = x.testBit k := by
  simp [Nat.testBit_shiftRight]

theorem toNat_shiftLeft_mod (b : Bool) (k : Nat) (hk : k < 64) :
    (b.toNat <<< k) % ULONG_MOD = b.toNat <<< k := by
  apply Nat.mod_eq_of_lt
  cases b
  · simp [ULONG_MOD]
  · simp only [Bool.toNat_true, Nat.one_shiftLeft, ULONG_MOD]
    exact Nat.pow_lt_pow_right (by decide) hk

theorem testBit_toNat_shiftLeft (b : Bool) (k j : Nat) :
    (b.toNat <<< k).testBit j = (b && decide (k = j)) := by
  cases b
  · simp
  · simp [Nat.one_shiftLeft, Nat.testBit_two_pow]

theorem LFSRa_reg (r : Nat) : (LFSRa r).1 = (feedbackA r).toNat <<< 31 ||| r >>> 1 := by
  have h : ((r >>> 31) ^^^ (r >>> 6) ^^^ (r >>> 4) ^^^ (r >>> 1) ^^^ r) &&& 1
      = (feedbackA r).toNat := by
    rw [and_one_eq_toNat]
    simp only [feedbackA, Nat.testBit_xor, testBit_zero_shiftRight]
  show (((((r >>> 31) ^^^ (r >>> 6) ^^^ (r >>> 4) ^^^ (r >>> 1) ^^^ r) &&& 1) <<< 31)
      % ULONG_MOD) ||| (r >>> 1) = _
  rw [h, toNat_shiftLeft_mod _ _ (by decide)]

theorem LFSRb_reg (r : Nat) : (LFSRb r).1 = (feedbackB r).toNat <<< 23 ||| r >>> 1 := by
  have h : ((r >>> 23) ^^^ (r >>> 3) ^^^ (r >>> 2) ^^^ r) &&& 1
      = (feedbackB r).toNat := by
    rw [and_one_eq_toNat]
    simp only [feedbackB, Nat.testBit_xor, testBit_zero_shiftRight]
  show (((((r >>> 23) ^^^ (r >>> 3) ^^^ (r >>> 2) ^^^ r) &&& 1) <<< 23)
      % ULONG_MOD) ||| (r >>> 1) = _
  rw [h, toNat_shiftLeft_mod _ _ (by decide)]

theorem LFSRa_testBit (r j : Nat) :
    (LFSRa r).1.testBit j = ((feedbackA r && decide (31 = j)) || r.testBit (j + 1)) := by
  rw [LFSRa_reg, Nat.testBit_or, testBit_toNat_shiftLeft, Nat.testBit_shiftRight,
    Nat.add_comm]

theorem LFSRb_testBit (r j : Nat) :
    (LFSRb r).1.testBit j = ((feedbackB r && decide (23 = j)) || r.testBit (j + 1)) := by
  rw [LFSRb_reg, Nat.testBit_or, testBit_toNat_shiftLeft, Nat.testBit_shiftRight,
    Nat.add_comm]

theorem LFSRa_ret (r : Nat) : (LFSRa r).2 = ((LFSRa r).1.testBit 0).toNat :=
  and_one_eq_toNat _

theorem LFSRb_ret (r : Nat) : (LFSRb r).2 = ((LFSRb r).1.testBit 0).toNat :=
  and_one_eq_toNat _

theorem testBit_high_eq_false (r j : Nat) (h : r < 2 ^ 32) (hj : 32 ≤ j) :
    r.testBit j = false :=
  Nat.testBit_lt_two_pow (lt_of_lt_of_le h (Nat.pow_le_pow_right (by decide) hj))

theorem LFSRa_lt (r : Nat) (h : r < 2 ^ 32) : (LFSRa r).1 < 2 ^ 32 := by
  apply Nat.lt_pow_two_of_testBit
  intro i hi
  have h1 : ¬ (31 = i) := by omega
  simp [LFSRa_testBit, h1, testBit_high_eq_false r (i + 1) h (by omega)]

theorem LFSRb_lt (r : Nat) (h : r < 2 ^ 32) : (LFSRb r).1 < 2 ^ 32 := by
  apply Nat.lt_pow_two_of_testBit
  intro i hi
  have h1 : ¬ (23 = i) := by omega
  simp [LFSRb_testBit, h1, testBit_high_eq_false r (i + 1) h (by omega)]

theorem stepN_succ (step : Nat → Nat × Nat) (k r : Nat) :
    stepN step (k + 1) r = stepN step k (step r).1 := rfl

theorem stepN_LFSRa_lt (k r : Nat) (h : r < 2 ^ 32) : stepN LFSRa k r < 2 ^ 32 := by
  induction k generalizing r with
  | zero => exact h
  | succ k ih => rw [stepN_succ]; exact ih _ (LFSRa_lt r h)

theorem stepN_LFSRb_lt (k r : Nat) (h : r < 2 ^ 32) : stepN LFSRb k r < 2 ^ 32 := by
  induction k generalizing r with
  | zero => exact h
  | succ k ih => rw [stepN_succ]; exact ih _ (LFSRb_lt r h)

/-- Generator A is one-to-one on 32-bit registers: the bit shifted out is
recovered from the feedback bit. -/
theorem LFSRa_injective (a b : Nat) (ha : a < 2 ^ 32) (hb : b < 2 ^ 32)
    (h : (LFSRa a).1 = (LFSRa b).1) : a = b := by
  have hbit : ∀ j, ((feedbackA a && decide (31 = j)) || a.testBit (j + 1))
      = ((feedbackA b && decide (31 = j)) || b.testBit (j + 1)) := by
    intro j
    rw [← LFSRa_testBit, ← LFSRa_testBit, h]
  have hup : ∀ j, j ≤ 30 → a.testBit (j + 1) = b.testBit (j + 1) := by
    intro j hj
    have h1 : ¬ (31 = j) := by omega
    simpa [h1] using hbit j
  have hfb : feedbackA a = feedbackA b := by
    simpa [testBit_high_eq_false a 32 ha (le_refl _),
      testBit_high_eq_false b 32 hb (le_refl _)] using hbit 31
  have h0 : a.testBit 0 = b.testBit 0 := by
    have e31 := hup 30 (by decide)
    have e6 := hup 5 (by decide)
    have e4 := hup 3 (by decide)
    have e1 := hup 0 (by decide)
    simp only [feedbackA, Nat.reduceAdd] at hfb e31 e6 e4 e1
    rw [e31, e6, e4, e1] at hfb
    revert hfb
    cases b.testBit 31 <;> cases b.testBit 6 <;> cases b.testBit 4 <;> cases b.testBit 1 <;>
      cases a.testBit 0 <;> cases b.testBit 0 <;> simp
  apply Nat.eq_of_testBit_eq
  intro i
  rcases Nat.eq_zero_or_pos i with rfl | hpos
  · exact h0
  · by_cases hi : i ≤ 31
    · obtain ⟨j, rfl⟩ : ∃ j, i = j + 1 := ⟨i - 1, by omega⟩
      exact hup j (by omega)
    · rw [testBit_high_eq_false a i ha (by omega), testBit_high_eq_false b i hb (by omega)]

theorem stepN_LFSRa_injective (k a b : Nat) (ha : a < 2 ^ 32) (hb : b < 2 ^ 32)
    (h : stepN LFSRa k a = stepN LFSRa k b) : a = b := by
  induction k generalizing a b with
  | zero => exact h
  | succ k ih =>
    rw [stepN_succ, stepN_succ] at h
    exact LFSRa_injective a b ha hb (ih _ _ (LFSRa_lt a ha) (LFSRa_lt b hb) h)

/-! ## Lemmas on the warm-up loop -/

theorem toULong_counterAt_lt (k : Nat) (h : k < 2 ^ 31) : toULong (counterAt k) = k := by
  have h' : k < 2147483648 := by simpa using h
  simp only [counterAt, h, if_true, toULong]
  norm_num
  omega

theorem toULong_counterAt_top : toULong (counterAt (2 ^ 31)) = 2 ^ 64 - 2 ^ 31 := by
  decide

theorem incrInt_counterAt (k : Nat) (h : k < 2 ^ 31) :
    incrInt (counterAt k) = counterAt (k + 1) := by
  have h' : k < 2147483648 := by simpa using h
  simp only [counterAt, h, if_true, incrInt]
  split_ifs with h2
  · have h2' : k + 1 < 2147483648 := by simpa using h2
    norm_num
    omega
  · have h2' : ¬ (k + 1 < 2147483648) := by simpa using h2
    norm_num
    omega

theorem warmLoop_from (step : Nat → Nat × Nat) (bound : Nat) (hb : bound ≤ 2 ^ 64 - 2 ^ 31)
    (m k fuel r : Nat) (hk : k + m = min bound (2 ^ 31)) (hfuel : m < fuel) :
    warmLoop step bound fuel (counterAt k) r = some (stepN step m r) := by
  induction m generalizing k fuel r with
  | zero =>
    obtain ⟨f, rfl⟩ : ∃ f, fuel = f + 1 := ⟨fuel - 1, by omega⟩
    have hge : ¬ (toULong (counterAt k) < bound) := by
      by_cases hlt : k < 2 ^ 31
      · rw [toULong_counterAt_lt k hlt]
        have := Nat.min_le_left bound (2 ^ 31)
        omega
      · have hk' : k = 2 ^ 31 := by
          have := Nat.min_le_right bound (2 ^ 31)
          omega
        rw [hk', toULong_counterAt_top]
        omega
    simp only [warmLoop, hge, if_false, stepN]
  | succ m ih =>
    obtain ⟨f, rfl⟩ : ∃ f, fuel = f + 1 := ⟨fuel - 1, by omega⟩
    have h1 := Nat.min_le_left bound (2 ^ 31)
    have h2 := Nat.min_le_right bound (2 ^ 31)
    have hlt : k < 2 ^ 31 := by omega
    have hc : toULong (counterAt k) < bound := by
      rw [toULong_counterAt_lt k hlt]; omega
    simp only [warmLoop, hc, if_true, incrInt_counterAt k hlt, stepN_succ]
    exact ih (k + 1) f _ (by omega) (by omega)

/-- The warm-up loop ends, after `bound` calls of the generator when the
`int` counter can reach `bound` and after `2 ^ 31` calls otherwise. -/
theorem warmLoop_steps (step : Nat → Nat × Nat) (bound : Nat) (hb : bound ≤ 2 ^ 64 - 2 ^ 31)
    (r : Nat) : warmLoop step bound WARM_FUEL 0 r = some (stepN step (min bound (2 ^ 31)) r) := by
  have h := warmLoop_from step bound hb (min bound (2 ^ 31)) 0 WARM_FUEL r (by omega)
    (lt_of_le_of_lt (Nat.min_le_right _ _) (by decide))
  simpa [counterAt] using h

/-! ## Lemmas on the key derivation -/

theorem hexVal_lt (c : Char) (v : Nat) (h : hexVal c = some v) : v < 16 := by
  unfold hexVal at h
  simp only [Char.reduceToNat] at h
  split_ifs at h with h1 h2 h3
  all_goals
    simp only [Option.some.injEq] at h
    omega

theorem hexVal_toNat (c : Char) (v : Nat) (h : hexVal c = some v) :
    48 ≤ c.toNat ∧ c.toNat ≤ 102 ∧ c.toNat ≠ 88 := by
  unfold hexVal at h
  simp only [Char.reduceToNat] at h
  split_ifs at h with h1 h2 h3 <;> omega

theorem hexVal_ne (c : Char) (v : Nat) (h : hexVal c = some v) (c' : Char)
    (hc' : c'.toNat < 48 ∨ 102 < c'.toNat ∨ c'.toNat = 88) : c ≠ c' := by
  have hn := hexVal_toNat c v h
  rintro rfl
  omega

theorem hexVal_not_space (c : Char) (v : Nat) (h : hexVal c = some v) : isSpace c = false := by
  have key := hexVal_ne c v h
  simp only [isSpace, Bool.or_eq_false_iff, decide_eq_false_iff_not]
  exact ⟨⟨⟨⟨⟨key _ (by decide), key _ (by decide)⟩, key _ (by decide)⟩, key _ (by decide)⟩,
    key _ (by decide)⟩, key _ (by decide)⟩

/-- The value `strtoul` reads from 8 hex digits. -/
theorem strtoul16_hex8 (c0 c1 c2 c3 c4 c5 c6 c7 : Char) (v0 v1 v2 v3 v4 v5 v6 v7 : Nat)
    (h0 : hexVal c0 = some v0) (h1 : hexVal c1 = some v1) (h2 : hexVal c2 = some v2)
    (h3 : hexVal c3 = some v3) (h4 : hexVal c4 = some v4) (h5 : hexVal c5 = some v5)
    (h6 : hexVal c6 = some v6) (h7 : hexVal c7 = some v7) :
    strtoul16 [c0, c1, c2, c3, c4, c5, c6, c7]
      = v0 * 16 ^ 7 + v1 * 16 ^ 6 + v2 * 16 ^ 5 + v3 * 16 ^ 4 + v4 * 16 ^ 3 + v5 * 16 ^ 2
        + v6 * 16 + v7 := by
  have b0 := hexVal_lt _ _ h0
  have b1 := hexVal_lt _ _ h1
  have b2 := hexVal_lt _ _ h2
  have b3 := hexVal_lt _ _ h3
  have b4 := hexVal_lt _ _ h4
  have b5 := hexVal_lt _ _ h5
  have b6 := hexVal_lt _ _ h6
  have b7 := hexVal_lt _ _ h7
  have hd : hexDigits 0 [c0, c1, c2, c3, c4, c5, c6, c7]
      = v0 * 16 ^ 7 + v1 * 16 ^ 6 + v2 * 16 ^ 5 + v3 * 16 ^ 4 + v4 * 16 ^ 3 + v5 * 16 ^ 2
        + v6 * 16 + v7 := by
    simp only [hexDigits, h0, h1, h2, h3, h4, h5, h6, h7, ULONG_MOD]
    omega
  have hp : dropHexPrefix [c0, c1, c2, c3, c4, c5, c6, c7] = [c0, c1, c2, c3, c4, c5, c6, c7] := by
    unfold dropHexPrefix
    split
    · next cs heq =>
      simp only [List.cons.injEq] at heq
      exact absurd heq.2.1 (hexVal_ne _ _ h1 'x' (by decide))
    · next cs heq =>
      simp only [List.cons.injEq] at heq
      exact absurd heq.2.1 (hexVal_ne _ _ h1 'X' (by decide))
    · rfl
  have hs : List.dropWhile isSpace [c0, c1, c2, c3, c4, c5, c6, c7]
      = [c0, c1, c2, c3, c4, c5, c6, c7] := by
    simp [List.dropWhile, hexVal_not_space _ _ h0]
  unfold strtoul16
  rw [hs]
  split
  · next cs heq =>
    simp only [List.cons.injEq] at heq
    exact absurd heq.1 (hexVal_ne _ _ h0 '-' (by decide))
  · next cs heq =>
    simp only [List.cons.injEq] at heq
    exact absurd heq.1 (hexVal_ne _ _ h0 '+' (by decide))
  · rw [hp, hd]

theorem pick_hex8 (key : List Char) (d : Nat → Nat) (hk : IsHexKey key d)
    (i0 i1 i2 i3 i4 i5 i6 i7 : Nat) (b0 : i0 < 16) (b1 : i1 < 16) (b2 : i2 < 16)
    (b3 : i3 < 16) (b4 : i4 < 16) (b5 : i5 < 16) (b6 : i6 < 16) (b7 : i7 < 16) :
    (pick key [i0, i1, i2, i3, i4, i5, i6, i7]).map strtoul16
      = some (d i0 * 16 ^ 7 + d i1 * 16 ^ 6 + d i2 * 16 ^ 5 + d i3 * 16 ^ 4 + d i4 * 16 ^ 3
          + d i5 * 16 ^ 2 + d i6 * 16 + d i7) := by
  obtain ⟨hlen, hd⟩ := hk
  have hc : ∀ i, i < 16 → ∃ c, keyChar key i = some c ∧ hexVal c = some (d i) := by
    intro i hi
    have h := hd i hi
    have hi' : i < key.length := by omega
    simp only [keyChar, hi', if_true]
    cases hg : key[i]? with
    | none => simp [hg] at h
    | some c => exact ⟨c, rfl, by simpa [hg] using h⟩
  obtain ⟨c0, e0, h0⟩ := hc i0 b0
  obtain ⟨c1, e1, h1⟩ := hc i1 b1
  obtain ⟨c2, e2, h2⟩ := hc i2 b2
  obtain ⟨c3, e3, h3⟩ := hc i3 b3
  obtain ⟨c4, e4, h4⟩ := hc i4 b4
  obtain ⟨c5, e5, h5⟩ := hc i5 b5
  obtain ⟨c6, e6, h6⟩ := hc i6 b6
  obtain ⟨c7, e7, h7⟩ := hc i7 b7
  have hm : readAll key [i0, i1, i2, i3, i4, i5, i6, i7]
      = some [c0, c1, c2, c3, c4, c5, c6, c7] := by
    simp only [readAll, e0, e1, e2, e3, e4, e5, e6, e7]
  have n0 := hexVal_ne _ _ h0 (Char.ofNat 0) (by decide)
  have n1 := hexVal_ne _ _ h1 (Char.ofNat 0) (by decide)
  have n2 := hexVal_ne _ _ h2 (Char.ofNat 0) (by decide)
  have n3 := hexVal_ne _ _ h3 (Char.ofNat 0) (by decide)
  have n4 := hexVal_ne _ _ h4 (Char.ofNat 0) (by decide)
  have n5 := hexVal_ne _ _ h5 (Char.ofNat 0) (by decide)
  have n6 := hexVal_ne _ _ h6 (Char.ofNat 0) (by decide)
  have n7 := hexVal_ne _ _ h7 (Char.ofNat 0) (by decide)
  have ht : List.takeWhile (fun c => decide (c ≠ Char.ofNat 0)) [c0, c1, c2, c3, c4, c5, c6, c7]
      = [c0, c1, c2, c3, c4, c5, c6, c7] := by
    simp [List.takeWhile, n0, n1, n2, n3, n4, n5, n6, n7]
  unfold pick
  rw [hm]
  simp only [Option.map_some']
  rw [ht, strtoul16_hex8 _ _ _ _ _ _ _ _ _ _ _ _ _ _ _ _ h0 h1 h2 h3 h4 h5 h6 h7]

theorem hexKey_digit_lt (key : List Char) (d : Nat → Nat) (hk : IsHexKey key d) (i : Nat)
    (hi : i < 16) : d i < 16 := by
  have h := hk.2 i hi
  cases hg : key[i]? with
  | none => simp [hg] at h
  | some c => exact hexVal_lt c _ (by simpa [hg] using h)

/-! ## Key derivation -/

theorem derive_of_hexKey (key : List Char) (d : Nat → Nat) (hk : IsHexKey key d) :
    derive key = some
      { precount := d 0 * 16 ^ 7 + d 1 * 16 ^ 6 + d 2 * 16 ^ 5 + d 3 * 16 ^ 4 + d 4 * 16 ^ 3
          + d 5 * 16 ^ 2 + d 6 * 16 + d 7,
        initvala := d 12 * 16 ^ 7 + d 14 * 16 ^ 6 + d 10 * 16 ^ 5 + d 11 * 16 ^ 4
          + d 8 * 16 ^ 3 + d 13 * 16 ^ 2 + d 9 * 16 + d 15,
        initvalb := d 11 * 16 ^ 7 + d 14 * 16 ^ 6 + d 8 * 16 ^ 5 + d 15 * 16 ^ 4
          + d 13 * 16 ^ 3 + d 12 * 16 ^ 2 + d 15 * 16 + d 14 } ∧
    (∀ i, i < 16 → d i < 16) ∧
    d 0 * 16 ^ 7 + d 1 * 16 ^ 6 + d 2 * 16 ^ 5 + d 3 * 16 ^ 4 + d 4 * 16 ^ 3
      + d 5 * 16 ^ 2 + d 6 * 16 + d 7 < 2 ^ 32 ∧
    d 12 * 16 ^ 7 + d 14 * 16 ^ 6 + d 10 * 16 ^ 5 + d 11 * 16 ^ 4
      + d 8 * 16 ^ 3 + d 13 * 16 ^ 2 + d 9 * 16 + d 15 < 2 ^ 32 ∧
    d 11 * 16 ^ 7 + d 14 * 16 ^ 6 + d 8 * 16 ^ 5 + d 15 * 16 ^ 4
      + d 13 * 16 ^ 3 + d 12 * 16 ^ 2 + d 15 * 16 + d 14 < 2 ^ 32 := by
  have hlt := hexKey_digit_lt key d hk
  have l0 := hlt 0 (by decide)
  have l1 := hlt 1 (by decide)
  have l2 := hlt 2 (by decide)
  have l3 := hlt 3 (by decide)
  have l4 := hlt 4 (by decide)
  have l5 := hlt 5 (by decide)
  have l6 := hlt 6 (by decide)
  have l7 := hlt 7 (by decide)
  have l8 := hlt 8 (by decide)
  have l9 := hlt 9 (by decide)
  have l10 := hlt 10 (by decide)
  have l11 := hlt 11 (by decide)
  have l12 := hlt 12 (by decide)
  have l13 := hlt 13 (by decide)
  have l14 := hlt 14 (by decide)
  have l15 := hlt 15 (by decide)
  refine ⟨?_, hlt, by omega, by omega, by omega⟩
  have hc := pick_hex8 key d hk 0 1 2 3 4 5 6 7 (by decide) (by decide) (by decide)
    (by decide) (by decide) (by decide) (by decide) (by decide)
  have ha := pick_hex8 key d hk 12 14 10 11 8 13 9 15 (by decide) (by decide) (by decide)
    (by decide) (by decide) (by decide) (by decide) (by decide)
  have hb := pick_hex8 key d hk 11 14 8 15 13 12 15 14 (by decide) (by decide) (by decide)
    (by decide) (by decide) (by decide) (by decide) (by decide)
  rw [Option.map_eq_some'] at hc ha hb
  obtain ⟨sc, ec, vc⟩ := hc
  obtain ⟨sa, ea, va⟩ := ha
  obtain ⟨sb, eb, vb⟩ := hb
  simp only [derive, cntIdx, keyIdxA, keyIdxB, ec, ea, eb, vc, va, vb, Option.bind_eq_bind,
    Option.some_bind, Option.pure_def, bind, pure]

theorem derive_bounds (key : List Char) (d : Nat → Nat) (hk : IsHexKey key d) :
    ∃ D, derive key = some D ∧ D.precount < 2 ^ 32 ∧ D.initvala < 2 ^ 32 ∧
      D.initvalb < 2 ^ 32 := by
  obtain ⟨hD, _, hp, ha, hb⟩ := derive_of_hexKey key d hk
  exact ⟨_, hD, hp, ha, hb⟩

/-- C1: for a key of 16 hex digits with the digit values `d 0`, ..., `d 15`,
`precount` is the number written by the digits 0-7 in order, `initvala` the
number written by the digits 12, 14, 10, 11, 8, 13, 9, 15 and `initvalb` the
number written by the digits 11, 14, 8, 15, 13, 12, 15, 14; every digit value
is below 16 and the three numbers are below `2 ^ 32`. -/
theorem derive_hexKey (key : List Char) (d : Nat → Nat) (hk : IsHexKey key d) :
    derive key = some
      { precount := d 0 * 16 ^ 7 + d 1 * 16 ^ 6 + d 2 * 16 ^ 5 + d 3 * 16 ^ 4 + d 4 * 16 ^ 3
          + d 5 * 16 ^ 2 + d 6 * 16 + d 7,
        initvala := d 12 * 16 ^ 7 + d 14 * 16 ^ 6 + d 10 * 16 ^ 5 + d 11 * 16 ^ 4
          + d 8 * 16 ^ 3 + d 13 * 16 ^ 2 + d 9 * 16 + d 15,
        initvalb := d 11 * 16 ^ 7 + d 14 * 16 ^ 6 + d 8 * 16 ^ 5 + d 15 * 16 ^ 4
          + d 13 * 16 ^ 3 + d 12 * 16 ^ 2 + d 15 * 16 + d 14 } ∧
    (∀ i, i < 16 → d i < 16) ∧
    d 0 * 16 ^ 7 + d 1 * 16 ^ 6 + d 2 * 16 ^ 5 + d 3 * 16 ^ 4 + d 4 * 16 ^ 3
      + d 5 * 16 ^ 2 + d 6 * 16 + d 7 < 2 ^ 32 ∧
    d 12 * 16 ^ 7 + d 14 * 16 ^ 6 + d 10 * 16 ^ 5 + d 11 * 16 ^ 4
      + d 8 * 16 ^ 3 + d 13 * 16 ^ 2 + d 9 * 16 + d 15 < 2 ^ 32 ∧
    d 11 * 16 ^ 7 + d 14 * 16 ^ 6 + d 8 * 16 ^ 5 + d 15 * 16 ^ 4
      + d 13 * 16 ^ 3 + d 12 * 16 ^ 2 + d 15 * 16 + d 14 < 2 ^ 32 :=
  derive_of_hexKey key d hk

theorem derive_hexKey_witness :
    IsHexKey "0011223380a0f0ed".toList exampleDigits ∧
    derive "0011223380a0f0ed".toList = some
      { precount := 0x00112233, initvala := 0xFEA0800D, initvalb := 0x0E8D0FDE } :=
  ⟨⟨rfl, by decide⟩, (derive_hexKey "0011223380a0f0ed".toList exampleDigits ⟨rfl, by decide⟩).1⟩

/-! ## The generators, bit by bit -/

/-- C2: one call of `LFSRa` on a 32-bit register moves every bit one place
down (bit `i` of the new register is bit `i + 1` of the old one, `i ≤ 30`)
and puts the XOR of the old bits 31, 6, 4, 1 and 0 at bit 31. -/
theorem LFSRa_step_bits (r : Nat) (h : r < 2 ^ 32) :
    (∀ i, i ≤ 30 → (LFSRa r).1.testBit i = r.testBit (i + 1)) ∧
    (LFSRa r).1.testBit 31
      = (Bool.xor (Bool.xor (Bool.xor (Bool.xor (r.testBit 31) (r.testBit 6)) (r.testBit 4)) (r.testBit 1)) (r.testBit 0)) := by
  constructor
  · intro i hi
    have : ¬ (31 = i) := by omega
    simp [LFSRa_testBit, this]
  · simp [LFSRa_testBit, testBit_high_eq_false r 32 h (le_refl _), feedbackA]

theorem LFSRa_step_bits_witness :
    (∀ i, i ≤ 30 → (LFSRa 0x80000041).1.testBit i = (0x80000041 : Nat).testBit (i + 1)) ∧
    (LFSRa 0x80000041).1.testBit 31
      = (Bool.xor (Bool.xor (Bool.xor (Bool.xor ((0x80000041 : Nat).testBit 31) ((0x80000041 : Nat).testBit 6)) ((0x80000041 : Nat).testBit 4)) ((0x80000041 : Nat).testBit 1)) ((0x80000041 : Nat).testBit 0)) :=
  LFSRa_step_bits 0x80000041 (by decide)

/-- C3: one call of `LFSRb` on a 32-bit register leaves
`(f * 2 ^ 23) OR (r >> 1)` with `f` the XOR of the old bits 23, 3, 2 and 0,
not masked to 24 bits: bit `i` of the new register is bit `i + 1` of the old
one for `i ≤ 30`, `i ≠ 23`, bit 31 is clear, and bit 23 is `f OR` old bit 24. -/
theorem LFSRb_step_bits (r : Nat) (h : r < 2 ^ 32) :
    (LFSRb r).1
      = ((Bool.xor (Bool.xor (Bool.xor (r.testBit 23) (r.testBit 3)) (r.testBit 2)) (r.testBit 0)).toNat * 2 ^ 23
          ||| r >>> 1) ∧
    (∀ i, i ≤ 30 → i ≠ 23 → (LFSRb r).1.testBit i = r.testBit (i + 1)) ∧
    (LFSRb r).1.testBit 31 = false ∧
    (LFSRb r).1.testBit 23
      = ((Bool.xor (Bool.xor (Bool.xor (r.testBit 23) (r.testBit 3)) (r.testBit 2)) (r.testBit 0)) || r.testBit 24) := by
  refine ⟨?_, ?_, ?_, ?_⟩
  · rw [LFSRb_reg, Nat.shiftLeft_eq]; rfl
  · intro i _ hi
    have : ¬ (23 = i) := fun e => hi e.symm
    simp [LFSRb_testBit, this]
  · simp [LFSRb_testBit, testBit_high_eq_false r 32 h (le_refl _)]
  · simp [LFSRb_testBit, feedbackB]

theorem LFSRb_step_bits_witness :
    (LFSRb 0xFF00000D).1
      = ((Bool.xor (Bool.xor (Bool.xor ((0xFF00000D : Nat).testBit 23) ((0xFF00000D : Nat).testBit 3)) ((0xFF00000D : Nat).testBit 2)) ((0xFF00000D : Nat).testBit 0)).toNat * 2 ^ 23
          ||| 0xFF00000D >>> 1) ∧
    (∀ i, i ≤ 30 → i ≠ 23 →
      (LFSRb 0xFF00000D).1.testBit i = (0xFF00000D : Nat).testBit (i + 1)) ∧
    (LFSRb 0xFF00000D).1.testBit 31 = false ∧
    (LFSRb 0xFF00000D).1.testBit 23
      = ((Bool.xor (Bool.xor (Bool.xor ((0xFF00000D : Nat).testBit 23) ((0xFF00000D : Nat).testBit 3)) ((0xFF00000D : Nat).testBit 2)) ((0xFF00000D : Nat).testBit 0))
          || (0xFF00000D : Nat).testBit 24) :=
  LFSRb_step_bits 0xFF00000D (by decide)

/-- C4: for both generators and every 32-bit register, the value a call
returns is the least significant bit of the register the call leaves, and
that bit is bit 1 of the register before the call. -/
theorem LFSR_returns_old_bit_one (r : Nat) (_h : r < 2 ^ 32) :
    ((LFSRa r).2 = ((LFSRa r).1.testBit 0).toNat ∧ (LFSRa r).2 = (r.testBit 1).toNat) ∧
    ((LFSRb r).2 = ((LFSRb r).1.testBit 0).toNat ∧ (LFSRb r).2 = (r.testBit 1).toNat) := by
  refine ⟨⟨LFSRa_ret r, ?_⟩, ⟨LFSRb_ret r, ?_⟩⟩
  · rw [LFSRa_ret, LFSRa_testBit]; simp
  · rw [LFSRb_ret, LFSRb_testBit]; simp

theorem LFSR_returns_old_bit_one_witness :
    ((LFSRa 0x80000041).2 = ((LFSRa 0x80000041).1.testBit 0).toNat ∧
      (LFSRa 0x80000041).2 = ((0x80000041 : Nat).testBit 1).toNat) ∧
    ((LFSRb 0x80000041).2 = ((LFSRb 0x80000041).1.testBit 0).toNat ∧
      (LFSRb 0x80000041).2 = ((0x80000041 : Nat).testBit 1).toNat) :=
  LFSR_returns_old_bit_one 0x80000041 (by decide)

/-! ## Bit reconstruction -/

theorem outBits_length (step : Nat → Nat × Nat) (k r : Nat) : (outBits step k r).length = k := by
  induction k generalizing r with
  | zero => rfl
  | succ k ih => simp [outBits, ih]

theorem outBits_le_one (step : Nat → Nat × Nat) (hbit : ∀ r, (step r).2 ≤ 1) (k r : Nat) :
    ∀ b ∈ outBits step k r, b ≤ 1 := by
  induction k generalizing r with
  | zero => simp [outBits]
  | succ k ih =>
    intro b hb
    simp only [outBits, List.mem_cons] at hb
    rcases hb with rfl | hb
    · exact hbit r
    · exact ih _ b hb

theorem drawLoop_fst (step : Nat → Nat × Nat) (k r num : Nat) :
    (drawLoop step k r num).1 = stepN step k r := by
  induction k generalizing r num with
  | zero => rfl
  | succ k ih => simp only [drawLoop, stepN, ih]

theorem drawLoop_snd (step : Nat → Nat × Nat) (k r num : Nat) :
    (drawLoop step k r num).2
      = num + ∑ i in Finset.range k, (outBits step k r).getD i 0 * 2 ^ (k - 1 - i) := by
  induction k generalizing r num with
  | zero => simp [drawLoop]
  | succ k ih =>
    simp only [drawLoop, ih, outBits, Finset.sum_range_succ', List.getD_cons_succ,
      List.getD_cons_zero]
    simp only [Nat.add_sub_cancel, Nat.sub_zero]
    have e : ∀ i, k - (i + 1) = k - 1 - i := fun i => by omega
    rw [Finset.sum_congr rfl (fun i _ => by rw [← e i])]
    ring

theorem foldl_pack (bits : List Nat) (acc : Nat) :
    bits.foldl (fun num b => num * 2 + b) acc
      = acc * 2 ^ bits.length
        + ∑ i in Finset.range bits.length, bits.getD i 0 * 2 ^ (bits.length - 1 - i) := by
  induction bits generalizing acc with
  | nil => simp
  | cons b bs ih =>
    simp only [List.foldl_cons, ih, List.length_cons, Finset.sum_range_succ',
      List.getD_cons_succ, List.getD_cons_zero]
    simp only [Nat.add_sub_cancel, Nat.sub_zero]
    have e : ∀ i, bs.length - (i + 1) = bs.length - 1 - i := fun i => by omega
    rw [Finset.sum_congr rfl (fun i _ => by rw [← e i])]
    ring

theorem foldl_pack_lt (bits : List Nat) (hb : ∀ b ∈ bits, b ≤ 1) (acc m : Nat)
    (hacc : acc < 2 ^ m) :
    bits.foldl (fun num b => num * 2 + b) acc < 2 ^ (m + bits.length) := by
  induction bits generalizing acc m with
  | nil => simpa using hacc
  | cons b bs ih =>
    have h1 : b ≤ 1 := hb b (List.mem_cons_self _ _)
    have h2 : acc * 2 + b < 2 ^ (m + 1) := by rw [Nat.pow_succ]; omega
    have := ih (fun x hx => hb x (List.mem_cons_of_mem _ hx)) (acc * 2 + b) (m + 1) h2
    simpa [List.length_cons, Nat.add_assoc, Nat.add_comm 1] using this

theorem drawLoop_pack_eq (step : Nat → Nat × Nat) (hbit : ∀ r, (step r).2 ≤ 1) (r : Nat) :
    (drawLoop step 16 r 0).2 = packSum (outBits step 16 r) ∧
    (drawLoop step 16 r 0).2 = packFold (outBits step 16 r) ∧
    (drawLoop step 16 r 0).2 ≤ 65535 := by
  have hs : (drawLoop step 16 r 0).2 = packSum (outBits step 16 r) := by
    rw [drawLoop_snd, packSum, Nat.zero_add]
  have hf : packFold (outBits step 16 r) = packSum (outBits step 16 r) := by
    rw [packFold, foldl_pack, outBits_length, packSum, Nat.zero_mul, Nat.zero_add]
  refine ⟨hs, by rw [hs, hf], ?_⟩
  have hlt := foldl_pack_lt (outBits step 16 r) (outBits_le_one step hbit 16 r) 0 0 (by decide)
  rw [outBits_length] at hlt
  rw [hs, ← hf, packFold]
  have e : (2 : Nat) ^ (0 + 16) = 65536 := by norm_num
  omega

theorem LFSRa_ret_le_one (r : Nat) : (LFSRa r).2 ≤ 1 := by
  rw [LFSRa_ret]; exact Bool.toNat_le _

theorem LFSRb_ret_le_one (r : Nat) : (LFSRb r).2 ≤ 1 := by
  rw [LFSRb_ret]; exact Bool.toNat_le _

/-- C6: when 16 consecutive calls of a generator return the bits
`b0, ..., b15`, the combiner's loop `num += pow(2,n) * bit`, `n = 15 ... 0`,
leaves the big-endian packing `sum of b_i * 2 ^ (15 - i)`, which is what
folding `num = num*2 + bit` from 0 gives, and the result is at most 65535. -/
theorem drawLoop_packs (step : Nat → Nat × Nat) (hbit : ∀ r, (step r).2 ≤ 1) (r : Nat) :
    (drawLoop step 16 r 0).2 = packSum (outBits step 16 r) ∧
    (drawLoop step 16 r 0).2 = packFold (outBits step 16 r) ∧
    (drawLoop step 16 r 0).2 ≤ 65535 :=
  drawLoop_pack_eq step hbit r

theorem drawLoop_packs_witness :
    (∀ r, (LFSRa r).2 ≤ 1) ∧
    (drawLoop LFSRa 16 0x2468ACE 0).2 = packSum (outBits LFSRa 16 0x2468ACE) ∧
    (drawLoop LFSRa 16 0x2468ACE 0).2 = packFold (outBits LFSRa 16 0x2468ACE) ∧
    (drawLoop LFSRa 16 0x2468ACE 0).2 ≤ 65535 :=
  ⟨LFSRa_ret_le_one, drawLoop_packs LFSRa LFSRa_ret_le_one 0x2468ACE⟩

/-! ## Alphabets -/

theorem showNum_digit (d : Nat) (h : d < 10) :
    showNum "cr3n".toList d = [digitSym d] ∧ digitSym d ∈ "0123456789".toList := by
  revert d; decide

theorem showNum_letter (d : Nat) (h : d < 26) :
    showNum "cr3l".toList d = [letterSym d] ∧
      letterSym d ∈ "ABCDEFGHIJKLMNOPQRSTUVWXYZ".toList := by
  revert d; decide

theorem showNum_hex (d : Nat) (h : d < 16) :
    showNum "cr3h".toList d = [hexSym d] ∧ hexSym d ∈ "0123456789abcdef".toList := by
  revert d; decide

theorem showNum_mod (num : Nat) :
    showNum "cr3n".toList num = showNum "cr3n".toList (num % 10) ∧
    showNum "cr3l".toList num = showNum "cr3l".toList (num % 26) ∧
    showNum "cr3h".toList num = showNum "cr3h".toList (num % 16) := by
  have e1 : ¬ ("cr3n".toList = "cr3l".toList) := by decide
  have e2 : ¬ ("cr3n".toList = "cr3h".toList) := by decide
  have e3 : ¬ ("cr3l".toList = "cr3n".toList) := by decide
  have e4 : ¬ ("cr3l".toList = "cr3h".toList) := by decide
  have e5 : ¬ ("cr3h".toList = "cr3n".toList) := by decide
  have e6 : ¬ ("cr3h".toList = "cr3l".toList) := by decide
  simp only [showNum, e1, e2, e3, e4, e5, e6, if_true, if_false, Nat.mod_mod]
  exact ⟨trivial, trivial, trivial⟩

theorem drawLoop_le (step : Nat → Nat × Nat) (hbit : ∀ r, (step r).2 ≤ 1) (r : Nat) :
    (drawLoop step 16 r 0).2 < 2 ^ 16 := by
  have h := (drawLoop_pack_eq step hbit r).2.2
  have e : (2 : Nat) ^ 16 = 65536 := by norm_num
  omega

theorem symbolStep_text (name : List Char) (ra rb : Nat) (pspace : Int) :
    (symbolStep name { ra := ra, rb := rb, pspace := pspace }).2
      = showNum name ((drawLoop LFSRa 16 ra 0).2 ^^^ (drawLoop LFSRb 16 rb 0).2)
          ++ (if pspace - 1 = 0 then [' '] else []) := by
  unfold symbolStep
  by_cases h : pspace - 1 = 0
  · simp only [h, if_true]
  · simp only [h, if_false, List.append_nil]

/-- C7: for every pair of registers, with `num` the XOR of the two 16-bit
values drawn from them (at most 65535), the symbol written is `'0' + num % 10`
under `cr3n`, `'A' + num % 26` under `cr3l` and the lowercase hex digit of
`num % 16` under `cr3h`; so it is one of `0-9`, of `A-Z`, of `0-9a-f`. -/
theorem showNum_alphabet (ra rb : Nat) :
    (∀ name pspace, (symbolStep name { ra := ra, rb := rb, pspace := pspace }).2
      = showNum name ((drawLoop LFSRa 16 ra 0).2 ^^^ (drawLoop LFSRb 16 rb 0).2)
          ++ (if pspace - 1 = 0 then [' '] else [])) ∧
    (drawLoop LFSRa 16 ra 0).2 ^^^ (drawLoop LFSRb 16 rb 0).2 ≤ 65535 ∧
    (showNum "cr3n".toList ((drawLoop LFSRa 16 ra 0).2 ^^^ (drawLoop LFSRb 16 rb 0).2)
        = [digitSym (((drawLoop LFSRa 16 ra 0).2 ^^^ (drawLoop LFSRb 16 rb 0).2) % 10)] ∧
      digitSym (((drawLoop LFSRa 16 ra 0).2 ^^^ (drawLoop LFSRb 16 rb 0).2) % 10)
        ∈ "0123456789".toList) ∧
    (showNum "cr3l".toList ((drawLoop LFSRa 16 ra 0).2 ^^^ (drawLoop LFSRb 16 rb 0).2)
        = [letterSym (((drawLoop LFSRa 16 ra 0).2 ^^^ (drawLoop LFSRb 16 rb 0).2) % 26)] ∧
      letterSym (((drawLoop LFSRa 16 ra 0).2 ^^^ (drawLoop LFSRb 16 rb 0).2) % 26)
        ∈ "ABCDEFGHIJKLMNOPQRSTUVWXYZ".toList) ∧
    (showNum "cr3h".toList ((drawLoop LFSRa 16 ra 0).2 ^^^ (drawLoop LFSRb 16 rb 0).2)
        = [hexSym (((drawLoop LFSRa 16 ra 0).2 ^^^ (drawLoop LFSRb 16 rb 0).2) % 16)] ∧
      hexSym (((drawLoop LFSRa 16 ra 0).2 ^^^ (drawLoop LFSRb 16 rb 0).2) % 16)
        ∈ "0123456789abcdef".toList) := by
  refine ⟨fun name pspace => symbolStep_text name ra rb pspace, ?_⟩
  generalize hnum : (drawLoop LFSRa 16 ra 0).2 ^^^ (drawLoop LFSRb 16 rb 0).2 = num
  have hlt : num < 2 ^ 16 := by
    rw [← hnum]
    exact Nat.xor_lt_two_pow (drawLoop_le LFSRa LFSRa_ret_le_one ra)
      (drawLoop_le LFSRb LFSRb_ret_le_one rb)
  have e : (2 : Nat) ^ 16 = 65536 := by norm_num
  obtain ⟨m1, m2, m3⟩ := showNum_mod num
  refine ⟨by omega, ?_, ?_, ?_⟩
  · rw [m1]; exact showNum_digit _ (Nat.mod_lt _ (by decide))
  · rw [m2]; exact showNum_letter _ (Nat.mod_lt _ (by decide))
  · rw [m3]; exact showNum_hex _ (Nat.mod_lt _ (by decide))

/-! ## Warm-up -/

theorem warmA_steps (D : Derived) (h : D.precount < 2 ^ 32) :
    warmA D = some (stepN LFSRa (min (D.precount + 109) (2 ^ 31)) D.initvala) := by
  have e : (D.precount + 109) % ULONG_MOD = D.precount + 109 :=
    Nat.mod_eq_of_lt (by simp only [ULONG_MOD]; omega)
  rw [warmA, e]
  exact warmLoop_steps LFSRa _ (by omega) _

theorem warmB_steps (D : Derived) (h : D.precount < 2 ^ 32) :
    warmB D = some (stepN LFSRb (min (D.precount + 416) (2 ^ 31)) D.initvalb) := by
  have e : (D.precount + 416) % ULONG_MOD = D.precount + 416 :=
    Nat.mod_eq_of_lt (by simp only [ULONG_MOD]; omega)
  rw [warmB, e]
  exact warmLoop_steps LFSRb _ (by omega) _

/-- C5, at the key `7fffff9400000001`: `precount + 109` is `2 ^ 31 + 1`, the
`int` counter of the warm-up loop of generator A cannot reach it, the loop
ends after `2 ^ 31` calls, and the register it leaves is not the seed stepped
`precount + 109` times. -/
theorem warmA_stops_at_int_range :
    derive "7fffff9400000001".toList
      = some { precount := 0x7FFFFF94, initvala := 1, initvalb := 0x10010 } ∧
    0x7FFFFF94 + 109 = 2 ^ 31 + 1 ∧
    warmA { precount := 0x7FFFFF94, initvala := 1, initvalb := 0x10010 }
      = some (stepN LFSRa (2 ^ 31) 1) ∧
    stepN LFSRa (2 ^ 31) 1 ≠ stepN LFSRa (2 ^ 31 + 1) 1 := by
  refine ⟨by decide, by decide, ?_, ?_⟩
  · have h := warmA_steps { precount := 0x7FFFFF94, initvala := 1, initvalb := 0x10010 }
      (by decide)
    have e : min (0x7FFFFF94 + 109) (2 ^ 31) = 2 ^ 31 := by decide
    rw [h]
    exact congrArg (fun k => some (stepN LFSRa k 1)) e
  · intro h
    rw [stepN_succ] at h
    have := stepN_LFSRa_injective (2 ^ 31) 1 (LFSRa 1).1 (by decide) (by decide) h
    revert this
    decide

/-! ## Golden vector -/

/-- C8: invoked as `./cr3n 0000001100000030 3`, the program derives
`precount = 0x11`, `initvala = 0x03000000`, `initvalb = 0x03000003`, is not
aborted, ends with status 0 and writes three lines whose 75 digits are the
ones of the header comment. -/
theorem golden_vector :
    derive "0000001100000030".toList
      = some { precount := 0x11, initvala := 0x03000000, initvalb := 0x03000003 } ∧
    main "./cr3n".toList ["0000001100000030".toList, "3".toList]
      = .exited ("34071 13986 48742 63295 41317 \n".toList ++
          "85250 04428 42196 93633 92673 \n".toList ++
          "76031 21683 15046 53786 65616 \n".toList) [] 0 ∧
    (("34071 13986 48742 63295 41317 \n".toList ++
        "85250 04428 42196 93633 92673 \n".toList ++
        "76031 21683 15046 53786 65616 \n".toList).filter (fun c => c ≠ ' ' ∧ c ≠ '\n'))
      = "3407113986487426329541317".toList ++ "8525004428421969363392673".toList ++
          "7603121683150465378665616".toList := by
  refine ⟨by decide, ?_, by decide⟩
  decide!

/-! ## The zero check and the usage errors -/

theorem main_of_warm (argv0 key : List Char) (rest : List (List Char)) (D : Derived)
    (ra rb : Nat) (hname : basename argv0 ≠ "cr3".toList) (hrest : rest.length ≤ 1)
    (hD : derive key = some D) (hA : warmA D = some ra) (hB : warmB D = some rb) :
    main argv0 (key :: rest)
      = if ra = 0 ∨ rb = 0 then .exited [] zeroMsg 0
        else .exited
          (blockLoop (basename argv0)
            (if rest.length = 1 then atoi (rest.getD 0 []) else 20).toNat
            { ra := ra, rb := rb, pspace := 5 }) [] 0 := by
  have hargc : ¬ (1 + (key :: rest).length < 2 ∨ 1 + (key :: rest).length > 3) := by
    simp only [List.length_cons]; omega
  have h3 : (1 + (key :: rest).length = 3) = (rest.length = 1) := by
    simp only [List.length_cons, eq_iff_iff]; omega
  have hs : exitStatus 0 = 0 := by decide
  simp only [main, hname, hargc, if_false, h3, List.getD_cons_zero, List.getD_cons_succ, hD,
    hA, hB, hs]

/-- C9: for every key of 16 hex digits, every program name other than `cr3`
and an optional block count, both warm-up loops end; when the register of A
or of B is then 0 the run writes nothing to standard output, writes the
warning and ends with status 0; when both are non-zero the run goes on to the
output loops and standard output is what they write. -/
theorem main_zero_check (argv0 key : List Char) (d : Nat → Nat) (rest : List (List Char))
    (hk : IsHexKey key d) (hname : basename argv0 ≠ "cr3".toList) (hrest : rest.length ≤ 1) :
    ∃ D ra rb, derive key = some D ∧ warmA D = some ra ∧ warmB D = some rb ∧
      (ra = 0 ∨ rb = 0 → main argv0 (key :: rest) = .exited [] zeroMsg 0) ∧
      (ra ≠ 0 ∧ rb ≠ 0 → main argv0 (key :: rest)
        = .exited
            (blockLoop (basename argv0)
              (if rest.length = 1 then atoi (rest.getD 0 []) else 20).toNat
              { ra := ra, rb := rb, pspace := 5 }) [] 0) := by
  obtain ⟨D, hD, hp, _, _⟩ := derive_bounds key d hk
  have hA := warmA_steps D hp
  have hB := warmB_steps D hp
  refine ⟨D, _, _, hD, hA, hB, ?_, ?_⟩
  · intro hz
    rw [main_of_warm argv0 key rest _ _ _ hname hrest hD hA hB, if_pos hz]
  · intro hnz
    rw [main_of_warm argv0 key rest _ _ _ hname hrest hD hA hB, if_neg (fun h => h.elim hnz.1 hnz.2)]

theorem main_zero_check_witness :
    IsHexKey "0000000000000000".toList zeroDigits ∧
    basename "./cr3l".toList ≠ "cr3".toList ∧
    ["7".toList].length ≤ 1 ∧
    ∃ D ra rb, derive "0000000000000000".toList = some D ∧ warmA D = some ra ∧
      warmB D = some rb ∧
      (ra = 0 ∨ rb = 0 →
        main "./cr3l".toList ("0000000000000000".toList :: ["7".toList])
          = .exited [] zeroMsg 0) ∧
      (ra ≠ 0 ∧ rb ≠ 0 →
        main "./cr3l".toList ("0000000000000000".toList :: ["7".toList])
          = .exited
              (blockLoop (basename "./cr3l".toList)
                (if ["7".toList].length = 1 then atoi (["7".toList].getD 0 []) else 20).toNat
                { ra := ra, rb := rb, pspace := 5 }) [] 0) :=
  ⟨⟨rfl, by decide⟩, by decide, by decide,
    main_zero_check "./cr3l".toList "0000000000000000".toList zeroDigits ["7".toList]
      ⟨rfl, by decide⟩ (by decide) (by decide)⟩

/-- C10 as stated fails: invoked as `cr3` the program ends with status 0, and
invoked under a name that is none of `cr3`, `cr3n`, `cr3l`, `cr3h` it writes
no usage message, runs through the output loops and ends with status 0. -/
theorem usage_status_counterexample :
    main "cr3".toList ["0000001100000030".toList] = .exited [] nameMsg 0 ∧
    main "foo".toList ["0000001100000030".toList, "1".toList]
      = .exited "     \n".toList [] 0 := by
  refine ⟨by decide, ?_⟩
  decide!

/-- C10, amended: under a program name other than `cr3`, a wrong number of
arguments (none, or more than two) makes the program write the usage message
to the error stream, nothing to standard output, and end with the non-zero
status 255; under the name `cr3` the program writes its message to the error
stream and nothing to standard output. -/
theorem usage_errors (argv0 : List Char) (args : List (List Char)) :
    (basename argv0 ≠ "cr3".toList → (args.length < 1 ∨ 2 < args.length) →
      main argv0 args = .exited [] (usageMsg argv0) 255 ∧ (255 : Nat) ≠ 0) ∧
    (basename argv0 = "cr3".toList →
      ∃ status, main argv0 args = .exited [] nameMsg status) := by
  constructor
  · intro hname hargs
    have hargc : 1 + args.length < 2 ∨ 1 + args.length > 3 := by omega
    have hs : exitStatus (-1) = 255 := by decide
    simp only [main, hname, hargc, if_false, if_true, hs]
    exact ⟨trivial, by decide⟩
  · intro hname
    exact ⟨exitStatus 0, by simp only [main, hname, if_true]⟩

theorem usage_errors_witness :
    (main "./cr3n".toList [] = .exited [] (usageMsg "./cr3n".toList) 255 ∧ (255 : Nat) ≠ 0) ∧
    (∃ status, main "/usr/bin/cr3".toList ["0000001100000030".toList]
      = .exited [] nameMsg status) :=
  ⟨(usage_errors "./cr3n".toList []).1 (by decide) (by decide),
    (usage_errors "/usr/bin/cr3".toList ["0000001100000030".toList]).2 (by decide)⟩

/-! ## Key sensitivity -/

theorem digits_eq_of_sums_eq (d1 d2 : Nat → Nat) (h1 : ∀ i, i < 16 → d1 i < 16)
    (h2 : ∀ i, i < 16 → d2 i < 16)
    (hp : d1 0 * 16 ^ 7 + d1 1 * 16 ^ 6 + d1 2 * 16 ^ 5 + d1 3 * 16 ^ 4 + d1 4 * 16 ^ 3
        + d1 5 * 16 ^ 2 + d1 6 * 16 + d1 7
      = d2 0 * 16 ^ 7 + d2 1 * 16 ^ 6 + d2 2 * 16 ^ 5 + d2 3 * 16 ^ 4 + d2 4 * 16 ^ 3
        + d2 5 * 16 ^ 2 + d2 6 * 16 + d2 7)
    (ha : d1 12 * 16 ^ 7 + d1 14 * 16 ^ 6 + d1 10 * 16 ^ 5 + d1 11 * 16 ^ 4
        + d1 8 * 16 ^ 3 + d1 13 * 16 ^ 2 + d1 9 * 16 + d1 15
      = d2 12 * 16 ^ 7 + d2 14 * 16 ^ 6 + d2 10 * 16 ^ 5 + d2 11 * 16 ^ 4
        + d2 8 * 16 ^ 3 + d2 13 * 16 ^ 2 + d2 9 * 16 + d2 15)
    (i : Nat) (hi : i < 16) : d1 i = d2 i := by
  have a0 := h1 0 (by decide)
  have a1 := h1 1 (by decide)
  have a2 := h1 2 (by decide)
  have a3 := h1 3 (by decide)
  have a4 := h1 4 (by decide)
  have a5 := h1 5 (by decide)
  have a6 := h1 6 (by decide)
  have a7 := h1 7 (by decide)
  have a8 := h1 8 (by decide)
  have a9 := h1 9 (by decide)
  have a10 := h1 10 (by decide)
  have a11 := h1 11 (by decide)
  have a12 := h1 12 (by decide)
  have a13 := h1 13 (by decide)
  have a14 := h1 14 (by decide)
  have a15 := h1 15 (by decide)
  have b0 := h2 0 (by decide)
  have b1 := h2 1 (by decide)
  have b2 := h2 2 (by decide)
  have b3 := h2 3 (by decide)
  have b4 := h2 4 (by decide)
  have b5 := h2 5 (by decide)
  have b6 := h2 6 (by decide)
  have b7 := h2 7 (by decide)
  have b8 := h2 8 (by decide)
  have b9 := h2 9 (by decide)
  have b10 := h2 10 (by decide)
  have b11 := h2 11 (by decide)
  have b12 := h2 12 (by decide)
  have b13 := h2 13 (by decide)
  have b14 := h2 14 (by decide)
  have b15 := h2 15 (by decide)
  interval_cases i <;> omega

/-- C11 as stated fails: the keys `000000000000000a` and `000000000000000A`
are 16 hex characters each, differ in the character at position 15 and in no
other, and give the same `precount`, `initvala` and `initvalb`. -/
theorem key_case_counterexample :
    IsHexKey "000000000000000a".toList lastTenDigits ∧
    IsHexKey "000000000000000A".toList lastTenDigits ∧
    ("000000000000000a".toList)[15]? ≠ ("000000000000000A".toList)[15]? ∧
    (∀ j, j < 16 → j ≠ 15 →
      ("000000000000000a".toList)[j]? = ("000000000000000A".toList)[j]?) ∧
    derive "000000000000000a".toList = derive "000000000000000A".toList :=
  ⟨⟨rfl, by decide⟩, ⟨rfl, by decide⟩, by decide, by decide, by decide⟩

/-- C11, amended: two keys of 16 hex characters that differ in exactly one
character position, and there in the digit value (not only in the case of a
letter), give derived triples that differ in `precount`, `initvala` or
`initvalb`. -/
theorem key_value_sensitivity (key1 key2 : List Char) (d1 d2 : Nat → Nat)
    (h1 : IsHexKey key1 d1) (h2 : IsHexKey key2 d2) (i : Nat) (hi : i < 16)
    (hne : d1 i ≠ d2 i) (_hsame : ∀ j, j < 16 → j ≠ i → key1[j]? = key2[j]?) :
    ∃ D1 D2, derive key1 = some D1 ∧ derive key2 = some D2 ∧
      (D1.precount ≠ D2.precount ∨ D1.initvala ≠ D2.initvala ∨
        D1.initvalb ≠ D2.initvalb) := by
  obtain ⟨e1, l1, _, _, _⟩ := derive_of_hexKey key1 d1 h1
  obtain ⟨e2, l2, _, _, _⟩ := derive_of_hexKey key2 d2 h2
  refine ⟨_, _, e1, e2, ?_⟩
  by_contra hcon
  simp only [not_or, not_not] at hcon
  exact hne (digits_eq_of_sums_eq d1 d2 l1 l2 hcon.1 hcon.2.1 i hi)

theorem key_value_sensitivity_witness :
    IsHexKey "0011223380a0f0ed".toList exampleDigits ∧
    IsHexKey "0011223380a0f0e0".toList
      (fun i => if i = 15 then 0 else exampleDigits i) ∧
    exampleDigits 15 ≠ (fun i => if i = 15 then 0 else exampleDigits i) 15 ∧
    (∀ j, j < 16 → j ≠ 15 →
      ("0011223380a0f0ed".toList)[j]? = ("0011223380a0f0e0".toList)[j]?) ∧
    ∃ D1 D2, derive "0011223380a0f0ed".toList = some D1 ∧
      derive "0011223380a0f0e0".toList = some D2 ∧
      (D1.precount ≠ D2.precount ∨ D1.initvala ≠ D2.initvala ∨
        D1.initvalb ≠ D2.initvalb) :=
  ⟨⟨rfl, by decide⟩, ⟨rfl, by decide⟩, by decide, by decide,
    key_value_sensitivity "0011223380a0f0ed".toList "0011223380a0f0e0".toList exampleDigits
      (fun i => if i = 15 then 0 else exampleDigits i) ⟨rfl, by decide⟩ ⟨rfl, by decide⟩ 15
      (by decide) (by decide) (by decide)⟩

/-! ## Fixed points and non-zero registers -/

theorem stepN_succ_last (step : Nat → Nat × Nat) (k r : Nat) :
    stepN step (k + 1) r = (step (stepN step k r)).1 := by
  induction k generalizing r with
  | zero => rfl
  | succ k ih => rw [stepN_succ, ih, stepN_succ]

theorem stepN_add (step : Nat → Nat × Nat) (a b r : Nat) :
    stepN step (a + b) r = stepN step b (stepN step a r) := by
  induction a generalizing r with
  | zero => rw [Nat.zero_add]; rfl
  | succ a ih => rw [Nat.add_right_comm, stepN_succ, ih, stepN_succ]

theorem stepN_fixed (step : Nat → Nat × Nat) (r : Nat) (h : (step r).1 = r) (k : Nat) :
    stepN step k r = r := by
  induction k with
  | zero => rfl
  | succ k ih => rw [stepN_succ, h, ih]

theorem LFSRa_ne_zero (r : Nat) (h : r ≠ 0) : (LFSRa r).1 ≠ 0 := by
  intro hz
  have hbit : ∀ j, ((feedbackA r && decide (31 = j)) || r.testBit (j + 1)) = false := by
    intro j
    rw [← LFSRa_testBit, hz, Nat.zero_testBit]
  have hup : ∀ j, r.testBit (j + 1) = false := fun j => by
    have := hbit j
    simp only [Bool.or_eq_false_iff] at this
    exact this.2
  have hfb : feedbackA r = false := by
    have := hbit 31
    simp only [Bool.or_eq_false_iff] at this
    simpa using this.1
  have h0 : r.testBit 0 = false := by
    simpa [feedbackA, hup 30, hup 5, hup 3, hup 0] using hfb
  apply h
  apply Nat.eq_of_testBit_eq
  intro i
  rw [Nat.zero_testBit]
  cases i with
  | zero => exact h0
  | succ j => exact hup j

theorem LFSRb_ne_zero (r : Nat) (h : r ≠ 0) : (LFSRb r).1 ≠ 0 := by
  intro hz
  have hbit : ∀ j, ((feedbackB r && decide (23 = j)) || r.testBit (j + 1)) = false := by
    intro j
    rw [← LFSRb_testBit, hz, Nat.zero_testBit]
  have hup : ∀ j, r.testBit (j + 1) = false := fun j => by
    have := hbit j
    simp only [Bool.or_eq_false_iff] at this
    exact this.2
  have hfb : feedbackB r = false := by
    have := hbit 23
    simp only [Bool.or_eq_false_iff] at this
    simpa using this.1
  have h0 : r.testBit 0 = false := by
    simpa [feedbackB, hup 22, hup 2, hup 1] using hfb
  apply h
  apply Nat.eq_of_testBit_eq
  intro i
  rw [Nat.zero_testBit]
  cases i with
  | zero => exact h0
  | succ j => exact hup j

theorem stepN_LFSRa_eq_zero (k r : Nat) : stepN LFSRa k r = 0 ↔ r = 0 := by
  induction k generalizing r with
  | zero => exact Iff.rfl
  | succ k ih =>
    rw [stepN_succ, ih]
    constructor
    · intro h
      by_contra hr
      exact LFSRa_ne_zero r hr h
    · rintro rfl
      decide

theorem stepN_LFSRb_eq_zero (k r : Nat) : stepN LFSRb k r = 0 ↔ r = 0 := by
  induction k generalizing r with
  | zero => exact Iff.rfl
  | succ k ih =>
    rw [stepN_succ, ih]
    constructor
    · intro h
      by_contra hr
      exact LFSRb_ne_zero r hr h
    · rintro rfl
      decide

/-- C13: a call of `LFSRa` on the register 0 leaves 0 and returns 0, and so
does a call of `LFSRb`; from a zero register every later register is 0 and
every 16-bit number drawn is 0. -/
theorem zero_is_fixed :
    LFSRa 0 = (0, 0) ∧ LFSRb 0 = (0, 0) ∧
    (∀ k, stepN LFSRa k 0 = 0 ∧ stepN LFSRb k 0 = 0) ∧
    (∀ k, drawLoop LFSRa 16 (stepN LFSRa k 0) 0 = (0, 0) ∧
      drawLoop LFSRb 16 (stepN LFSRb k 0) 0 = (0, 0)) := by
  have ha : ∀ k, stepN LFSRa k 0 = 0 := stepN_fixed LFSRa 0 (by decide)
  have hb : ∀ k, stepN LFSRb k 0 = 0 := stepN_fixed LFSRb 0 (by decide)
  refine ⟨by decide, by decide, fun k => ⟨ha k, hb k⟩, fun k => ?_⟩
  rw [ha k, hb k]
  exact ⟨by decide, by decide⟩

/-- C12, where it fails: `0xFFFFFFFF` is a non-zero 32-bit register that
`LFSRa` brings back to itself after 1 step, not first after `2 ^ 32 - 1`;
and `0x80000000` is a non-zero 32-bit register that `LFSRb` never brings back
to itself, since every register `LFSRb` leaves has bit 31 clear. -/
theorem period_not_maximal :
    ((0xFFFFFFFF : Nat) ≠ 0 ∧ (0xFFFFFFFF : Nat) < 2 ^ 32 ∧
      stepN LFSRa 1 0xFFFFFFFF = 0xFFFFFFFF ∧ (1 : Nat) < 2 ^ 32 - 1) ∧
    ((0x80000000 : Nat) ≠ 0 ∧ (0x80000000 : Nat) < 2 ^ 32 ∧
      ∀ k, stepN LFSRb (k + 1) 0x80000000 ≠ 0x80000000) := by
  refine ⟨⟨by decide, by decide, by decide, by decide⟩, by decide, by decide, ?_⟩
  intro k h
  have hx : stepN LFSRb k 0x80000000 < 2 ^ 32 := stepN_LFSRb_lt k _ (by decide)
  have hbit : (stepN LFSRb (k + 1) 0x80000000).testBit 31 = false := by
    rw [stepN_succ_last, LFSRb_testBit, testBit_high_eq_false _ 32 hx (le_refl _)]
    simp
  rw [h] at hbit
  revert hbit
  decide

/-! ## Register width -/

/-- C16: a call of `LFSRa` or of `LFSRb` on a register below `2 ^ 32` leaves
a register below `2 ^ 32`; the two seeds of a key of 16 hex digits are below
`2 ^ 32`, and so is every register reached from them by any number of
calls. -/
theorem registers_stay_32bit :
    (∀ r, r < 2 ^ 32 → (LFSRa r).1 < 2 ^ 32 ∧ (LFSRb r).1 < 2 ^ 32) ∧
    (∀ key d, IsHexKey key d → ∃ D, derive key = some D ∧
      D.initvala < 2 ^ 32 ∧ D.initvalb < 2 ^ 32 ∧
      ∀ k, stepN LFSRa k D.initvala < 2 ^ 32 ∧ stepN LFSRb k D.initvalb < 2 ^ 32) := by
  refine ⟨fun r h => ⟨LFSRa_lt r h, LFSRb_lt r h⟩, fun key d hk => ?_⟩
  obtain ⟨D, hD, _, ha, hb⟩ := derive_bounds key d hk
  exact ⟨D, hD, ha, hb, fun k => ⟨stepN_LFSRa_lt k _ ha, stepN_LFSRb_lt k _ hb⟩⟩

theorem registers_stay_32bit_witness :
    ((0xFFFFFFFE : Nat) < 2 ^ 32 ∧
      (LFSRa 0xFFFFFFFE).1 < 2 ^ 32 ∧ (LFSRb 0xFFFFFFFE).1 < 2 ^ 32) ∧
    (IsHexKey "0011223380a0f0ed".toList exampleDigits ∧
      ∃ D, derive "0011223380a0f0ed".toList = some D ∧
        D.initvala < 2 ^ 32 ∧ D.initvalb < 2 ^ 32 ∧
        ∀ k, stepN LFSRa k D.initvala < 2 ^ 32 ∧ stepN LFSRb k D.initvalb < 2 ^ 32) :=
  ⟨⟨by decide, registers_stay_32bit.1 0xFFFFFFFE (by decide)⟩,
    ⟨⟨rfl, by decide⟩,
      registers_stay_32bit.2 "0011223380a0f0ed".toList exampleDigits ⟨rfl, by decide⟩⟩⟩

/-! ## Non-zero registers -/

theorem zeroMsg_ne_nil : zeroMsg ≠ [] := by decide

/-- C17: a call of `LFSRa` or of `LFSRb` on a non-zero 32-bit register leaves
a non-zero register; so after any number of calls the register is 0 exactly
when it was 0 at the start, and for a key of 16 hex digits the register after
warm-up is 0 exactly when the seed is 0: the run is aborted exactly when
`initvala = 0` or `initvalb = 0`. -/
theorem nonzero_preserved :
    (∀ r, r < 2 ^ 32 → r ≠ 0 → (LFSRa r).1 ≠ 0 ∧ (LFSRb r).1 ≠ 0) ∧
    (∀ k r, (stepN LFSRa k r = 0 ↔ r = 0) ∧ (stepN LFSRb k r = 0 ↔ r = 0)) ∧
    (∀ argv0 key d rest, IsHexKey key d → basename argv0 ≠ "cr3".toList → rest.length ≤ 1 →
      ∃ D ra rb, derive key = some D ∧ warmA D = some ra ∧ warmB D = some rb ∧
        (ra = 0 ↔ D.initvala = 0) ∧ (rb = 0 ↔ D.initvalb = 0) ∧
        (main argv0 (key :: rest) = .exited [] zeroMsg 0
          ↔ (D.initvala = 0 ∨ D.initvalb = 0))) := by
  refine ⟨fun r _ h => ⟨LFSRa_ne_zero r h, LFSRb_ne_zero r h⟩,
    fun k r => ⟨stepN_LFSRa_eq_zero k r, stepN_LFSRb_eq_zero k r⟩, ?_⟩
  intro argv0 key d rest hk hname hrest
  obtain ⟨D, hD, hp, _, _⟩ := derive_bounds key d hk
  have hA := warmA_steps D hp
  have hB := warmB_steps D hp
  refine ⟨D, _, _, hD, hA, hB, stepN_LFSRa_eq_zero _ _, stepN_LFSRb_eq_zero _ _, ?_⟩
  rw [main_of_warm argv0 key rest D _ _ hname hrest hD hA hB]
  have ea := stepN_LFSRa_eq_zero (min (D.precount + 109) (2 ^ 31)) D.initvala
  have eb := stepN_LFSRb_eq_zero (min (D.precount + 416) (2 ^ 31)) D.initvalb
  generalize stepN LFSRa (min (D.precount + 109) (2 ^ 31)) D.initvala = ra at ea ⊢
  generalize stepN LFSRb (min (D.precount + 416) (2 ^ 31)) D.initvalb = rb at eb ⊢
  by_cases hz : ra = 0 ∨ rb = 0
  · rw [if_pos hz]
    exact ⟨fun _ => by rwa [ea, eb] at hz, fun _ => rfl⟩
  · rw [if_neg hz]
    constructor
    · intro h
      injection h with _ h2 _
      exact absurd h2.symm zeroMsg_ne_nil
    · intro h
      rw [← ea, ← eb] at h
      exact absurd h hz

theorem nonzero_preserved_witness :
    ((1 : Nat) < 2 ^ 32 ∧ (1 : Nat) ≠ 0 ∧ (LFSRa 1).1 ≠ 0 ∧ (LFSRb 1).1 ≠ 0) ∧
    (IsHexKey "0000000001000000".toList (fun i => if i = 9 then 1 else 0) ∧
      basename "./cr3n".toList ≠ "cr3".toList ∧ ([] : List (List Char)).length ≤ 1 ∧
      ∃ D ra rb, derive "0000000001000000".toList = some D ∧ warmA D = some ra ∧
        warmB D = some rb ∧ (ra = 0 ↔ D.initvala = 0) ∧ (rb = 0 ↔ D.initvalb = 0) ∧
        (main "./cr3n".toList ("0000000001000000".toList :: []) = .exited [] zeroMsg 0
          ↔ (D.initvala = 0 ∨ D.initvalb = 0))) :=
  ⟨⟨by decide, by decide, nonzero_preserved.1 1 (by decide) (by decide)⟩,
    ⟨⟨rfl, by decide⟩, by decide, by decide,
      nonzero_preserved.2.2 "./cr3n".toList "0000000001000000".toList
        (fun i => if i = 9 then 1 else 0) [] ⟨rfl, by decide⟩ (by decide) (by decide)⟩⟩

/-! ## The width of generator B -/

theorem LFSRb_lt_pow (r m : Nat) (hm : 24 ≤ m) (h : r < 2 ^ (m + 1)) : (LFSRb r).1 < 2 ^ m := by
  apply Nat.lt_pow_two_of_testBit
  intro i hi
  have h1 : ¬ (23 = i) := by omega
  have h2 : r.testBit (i + 1) = false :=
    Nat.testBit_lt_two_pow (lt_of_lt_of_le h (Nat.pow_le_pow_right (by decide) (by omega)))
  simp [LFSRb_testBit, h1, h2]

theorem stepN_LFSRb_lt_pow (k r : Nat) (h : r < 2 ^ 32) :
    stepN LFSRb k r < 2 ^ (32 - min k 8) := by
  induction k with
  | zero => simpa using h
  | succ k ih =>
    rw [stepN_succ_last]
    by_cases hk : k < 8
    · have e1 : 32 - min (k + 1) 8 = 31 - k := by omega
      have e2 : 32 - min k 8 = (31 - k) + 1 := by omega
      rw [e1]
      rw [e2] at ih
      exact LFSRb_lt_pow _ _ (by omega) ih
    · have e1 : 32 - min (k + 1) 8 = 24 := by omega
      have e2 : 32 - min k 8 = 24 := by omega
      rw [e1]
      rw [e2] at ih
      exact LFSRb_lt_pow _ 24 (le_refl _)
        (lt_of_lt_of_le ih (Nat.pow_le_pow_right (by decide) (by decide)))

theorem stepN_LFSRb_lt24 (k r : Nat) (h : r < 2 ^ 24) : stepN LFSRb k r < 2 ^ 24 := by
  induction k generalizing r with
  | zero => exact h
  | succ k ih =>
    rw [stepN_succ]
    exact ih _ (LFSRb_lt_pow r 24 (le_refl _)
      (lt_of_lt_of_le h (Nat.pow_le_pow_right (by decide) (by decide))))

/-- C18: from a 32-bit register, 8 or more calls of `LFSRb` leave a register
below `2 ^ 24`, and a register below `2 ^ 24` stays below `2 ^ 24` under any
number of calls; so for a key of 16 hex digits the register of B when the
warm-up ends is below `2 ^ 24`. -/
theorem LFSRb_collapses :
    (∀ r k, r < 2 ^ 32 → 8 ≤ k → stepN LFSRb k r < 2 ^ 24) ∧
    (∀ r k, r < 2 ^ 24 → stepN LFSRb k r < 2 ^ 24) ∧
    (∀ key d, IsHexKey key d →
      ∃ D rb, derive key = some D ∧ warmB D = some rb ∧ rb < 2 ^ 24) := by
  have h8 : ∀ r k, r < 2 ^ 32 → 8 ≤ k → stepN LFSRb k r < 2 ^ 24 := by
    intro r k hr hk
    have h := stepN_LFSRb_lt_pow k r hr
    have e : 32 - min k 8 = 24 := by omega
    rwa [e] at h
  refine ⟨h8, fun r k h => stepN_LFSRb_lt24 k r h, fun key d hk => ?_⟩
  obtain ⟨D, hD, hp, _, hb⟩ := derive_bounds key d hk
  refine ⟨D, _, hD, warmB_steps D hp, h8 _ _ hb ?_⟩
  exact Nat.le_min.mpr ⟨by omega, by decide⟩

theorem LFSRb_collapses_witness :
    ((0xFFFFFFFF : Nat) < 2 ^ 32 ∧ 8 ≤ 8 ∧ stepN LFSRb 8 0xFFFFFFFF < 2 ^ 24) ∧
    ((0xFFFFFF : Nat) < 2 ^ 24 ∧ stepN LFSRb 3 0xFFFFFF < 2 ^ 24) ∧
    (IsHexKey "0011223380a0f0ed".toList exampleDigits ∧
      ∃ D rb, derive "0011223380a0f0ed".toList = some D ∧ warmB D = some rb ∧
        rb < 2 ^ 24) :=
  ⟨⟨by decide, by decide, LFSRb_collapses.1 0xFFFFFFFF 8 (by decide) (by decide)⟩,
    ⟨by decide, LFSRb_collapses.2.1 0xFFFFFF 3 (by decide)⟩,
    ⟨⟨rfl, by decide⟩,
      LFSRb_collapses.2.2 "0011223380a0f0ed".toList exampleDigits ⟨rfl, by decide⟩⟩⟩

theorem derive_fields (key : List Char) (d : Nat → Nat) (hk : IsHexKey key d) :
    ∃ D, derive key = some D ∧ D.precount < 2 ^ 32 ∧
      D.initvala = d 12 * 16 ^ 7 + d 14 * 16 ^ 6 + d 10 * 16 ^ 5 + d 11 * 16 ^ 4
        + d 8 * 16 ^ 3 + d 13 * 16 ^ 2 + d 9 * 16 + d 15 ∧
      D.initvalb = d 11 * 16 ^ 7 + d 14 * 16 ^ 6 + d 8 * 16 ^ 5 + d 15 * 16 ^ 4
        + d 13 * 16 ^ 3 + d 12 * 16 ^ 2 + d 15 * 16 + d 14 := by
  obtain ⟨hD, _, hp, _, _⟩ := derive_of_hexKey key d hk
  exact ⟨_, hD, hp, rfl, rfl⟩

/-! ## The all-ones register -/

/-- C20: a call of `LFSRa` on `0xFFFFFFFF` leaves `0xFFFFFFFF` and returns 1,
so every later register is `0xFFFFFFFF` and every 16-bit number drawn from A
is `0xFFFF`; for a key of 16 hex digits whose digits 8 to 15 are all `f`,
`initvala` is `0xFFFFFFFF`, the register of A when the warm-up ends is
`0xFFFFFFFF`, the register of B is not 0, and the run is not aborted. -/
theorem ones_fixed_for_A :
    LFSRa 0xFFFFFFFF = (0xFFFFFFFF, 1) ∧
    (∀ k, stepN LFSRa k 0xFFFFFFFF = 0xFFFFFFFF) ∧
    (∀ k, drawLoop LFSRa 16 (stepN LFSRa k 0xFFFFFFFF) 0 = (0xFFFFFFFF, 0xFFFF)) ∧
    (∀ argv0 key d rest, IsHexKey key d → (∀ i, 8 ≤ i → i < 16 → d i = 15) →
      basename argv0 ≠ "cr3".toList → rest.length ≤ 1 →
      ∃ D rb, derive key = some D ∧ D.initvala = 0xFFFFFFFF ∧
        warmA D = some 0xFFFFFFFF ∧ warmB D = some rb ∧ rb ≠ 0 ∧
        main argv0 (key :: rest)
          = .exited
              (blockLoop (basename argv0)
                (if rest.length = 1 then atoi (rest.getD 0 []) else 20).toNat
                { ra := 0xFFFFFFFF, rb := rb, pspace := 5 }) [] 0) := by
  have hfix : ∀ k, stepN LFSRa k 0xFFFFFFFF = 0xFFFFFFFF :=
    stepN_fixed LFSRa 0xFFFFFFFF (by decide)
  refine ⟨by decide, hfix, fun k => by rw [hfix k]; decide, ?_⟩
  intro argv0 key d rest hk hd hname hrest
  obtain ⟨D, hD, hp, ea, eb⟩ := derive_fields key d hk
  have ha : D.initvala = 0xFFFFFFFF := by
    rw [ea, hd 8 (by decide) (by decide), hd 9 (by decide) (by decide),
      hd 10 (by decide) (by decide), hd 11 (by decide) (by decide),
      hd 12 (by decide) (by decide), hd 13 (by decide) (by decide),
      hd 14 (by decide) (by decide), hd 15 (by decide) (by decide)]
    decide
  have hb : D.initvalb ≠ 0 := by
    rw [eb, hd 8 (by decide) (by decide), hd 11 (by decide) (by decide),
      hd 12 (by decide) (by decide), hd 13 (by decide) (by decide),
      hd 14 (by decide) (by decide), hd 15 (by decide) (by decide)]
    decide
  have hA := warmA_steps D hp
  have hB := warmB_steps D hp
  rw [ha, hfix] at hA
  have hrb := (stepN_LFSRb_eq_zero (min (D.precount + 416) (2 ^ 31)) D.initvalb).not.mpr hb
  refine ⟨D, _, hD, ha, hA, hB, hrb, ?_⟩
  rw [main_of_warm argv0 key rest D _ _ hname hrest hD hA hB,
    if_neg (fun h => h.elim (by decide) hrb)]

theorem ones_fixed_for_A_witness :
    IsHexKey "00000011ffffffff".toList (fun i => if i = 6 ∨ i = 7 then 1 else if i < 8 then 0 else 15) ∧
    ∃ D rb, derive "00000011ffffffff".toList = some D ∧ D.initvala = 0xFFFFFFFF ∧
      warmA D = some 0xFFFFFFFF ∧ warmB D = some rb ∧ rb ≠ 0 ∧
      main "./cr3h".toList ("00000011ffffffff".toList :: ["2".toList])
        = .exited
            (blockLoop (basename "./cr3h".toList)
              (if ["2".toList].length = 1 then atoi (["2".toList].getD 0 []) else 20).toNat
              { ra := 0xFFFFFFFF, rb := rb, pspace := 5 }) [] 0 :=
  ⟨⟨rfl, by decide⟩,
    ones_fixed_for_A.2.2.2 "./cr3h".toList "00000011ffffffff".toList
      (fun i => if i = 6 ∨ i = 7 then 1 else if i < 8 then 0 else 15) ["2".toList]
      ⟨rfl, by decide⟩ (by decide) (by decide) (by decide)⟩

/-! ## Zero seeds -/

/-- C15 as stated fails: no key of 16 hex digits has `initvala = 0` or
`initvalb = 0` and both registers non-zero when the warm-up ends. -/
theorem zero_seed_not_legal :
    ¬ ∃ key d, IsHexKey key d ∧ ∃ D ra rb, derive key = some D ∧
      (D.initvala = 0 ∨ D.initvalb = 0) ∧ warmA D = some ra ∧ warmB D = some rb ∧
      ra ≠ 0 ∧ rb ≠ 0 := by
  rintro ⟨key, d, hk, D, ra, rb, hD, hz, hA, hB, hra, hrb⟩
  obtain ⟨D', hD', hp, _, _⟩ := derive_bounds key d hk
  obtain rfl : D' = D := Option.some.inj (hD'.symm.trans hD)
  rw [warmA_steps D' hp] at hA
  rw [warmB_steps D' hp] at hB
  have ea := Option.some.inj hA
  have eb := Option.some.inj hB
  rcases hz with hz | hz
  · exact hra (ea ▸ (stepN_LFSRa_eq_zero _ _).mpr hz)
  · exact hrb (eb ▸ (stepN_LFSRb_eq_zero _ _).mpr hz)

/-- C15, amended: a zero seed is never made legal by the warm-up: for every
key of 16 hex digits with `initvala = 0` the register of A is 0 when the
warm-up ends, with `initvalb = 0` the register of B is 0, and in either case
the run is aborted with the warning, status 0 and no output. -/
theorem zero_seed_aborts (argv0 key : List Char) (d : Nat → Nat) (rest : List (List Char))
    (hk : IsHexKey key d) (hname : basename argv0 ≠ "cr3".toList) (hrest : rest.length ≤ 1) :
    ∃ D ra rb, derive key = some D ∧ warmA D = some ra ∧ warmB D = some rb ∧
      (D.initvala = 0 → ra = 0) ∧ (D.initvalb = 0 → rb = 0) ∧
      (D.initvala = 0 ∨ D.initvalb = 0 →
        main argv0 (key :: rest) = .exited [] zeroMsg 0) := by
  obtain ⟨D, hD, hp, _, _⟩ := derive_bounds key d hk
  have hA := warmA_steps D hp
  have hB := warmB_steps D hp
  refine ⟨D, _, _, hD, hA, hB, (stepN_LFSRa_eq_zero _ _).mpr, (stepN_LFSRb_eq_zero _ _).mpr, ?_⟩
  intro hz
  rw [main_of_warm argv0 key rest D _ _ hname hrest hD hA hB, if_pos]
  rcases hz with hz | hz
  · exact Or.inl ((stepN_LFSRa_eq_zero _ _).mpr hz)
  · exact Or.inr ((stepN_LFSRb_eq_zero _ _).mpr hz)

theorem zero_seed_aborts_witness :
    IsHexKey "0000000001000000".toList (fun i => if i = 9 then 1 else 0) ∧
    basename "./cr3n".toList ≠ "cr3".toList ∧ ["3".toList].length ≤ 1 ∧
    ∃ D ra rb, derive "0000000001000000".toList = some D ∧ warmA D = some ra ∧
      warmB D = some rb ∧ (D.initvala = 0 → ra = 0) ∧ (D.initvalb = 0 → rb = 0) ∧
      (D.initvala = 0 ∨ D.initvalb = 0 →
        main "./cr3n".toList ("0000000001000000".toList :: ["3".toList])
          = .exited [] zeroMsg 0) :=
  ⟨⟨rfl, by decide⟩, by decide, by decide,
    zero_seed_aborts "./cr3n".toList "0000000001000000".toList
      (fun i => if i = 9 then 1 else 0) ["3".toList] ⟨rfl, by decide⟩ (by decide) (by decide)⟩

/-! ## The window a draw reads -/

theorem outBits_LFSRa_getD (k r i : Nat) (hk : k ≤ 30) (hi : i < k) :
    (outBits LFSRa k r).getD i 0 = (r.testBit (i + 1)).toNat := by
  induction k generalizing r i with
  | zero => omega
  | succ k ih =>
    cases i with
    | zero =>
      simp only [outBits, List.getD_cons_zero]
      rw [LFSRa_ret, LFSRa_testBit]; simp
    | succ i =>
      simp only [outBits, List.getD_cons_succ]
      rw [ih _ _ (by omega) (by omega), LFSRa_testBit]
      have h1 : ¬ (31 = i + 1) := by omega
      simp [h1]

theorem outBits_LFSRb_getD (k r i : Nat) (hk : k ≤ 22) (hi : i < k) :
    (outBits LFSRb k r).getD i 0 = (r.testBit (i + 1)).toNat := by
  induction k generalizing r i with
  | zero => omega
  | succ k ih =>
    cases i with
    | zero =>
      simp only [outBits, List.getD_cons_zero]
      rw [LFSRb_ret, LFSRb_testBit]; simp
    | succ i =>
      simp only [outBits, List.getD_cons_succ]
      rw [ih _ _ (by omega) (by omega), LFSRb_testBit]
      have h1 : ¬ (23 = i + 1) := by omega
      simp [h1]

theorem testBit_two_mul_add (acc b m : Nat) (hb : b ≤ 1) :
    (acc * 2 + b).testBit m = if m = 0 then decide (b = 1) else acc.testBit (m - 1) := by
  cases m with
  | zero =>
    simp only [Nat.testBit_zero, if_true]
    congr 1
    apply propext
    constructor <;> intro h <;> omega
  | succ m =>
    have e : (acc * 2 + b) / 2 = acc := by omega
    simp [Nat.testBit_succ, e]

theorem foldl_pack_testBit (bits : List Nat) (hb : ∀ b ∈ bits, b ≤ 1) (acc j : Nat) :
    (bits.foldl (fun num b => num * 2 + b) acc).testBit j
      = if j < bits.length then decide (bits.getD (bits.length - 1 - j) 0 = 1)
        else acc.testBit (j - bits.length) := by
  induction bits generalizing acc j with
  | nil => simp
  | cons b bs ih =>
    have h1 : b ≤ 1 := hb b (List.mem_cons_self _ _)
    rw [List.foldl_cons, ih (fun x hx => hb x (List.mem_cons_of_mem _ hx))]
    simp only [List.length_cons]
    by_cases hj : j < bs.length
    · have hj' : j < bs.length + 1 := by omega
      have e : bs.length + 1 - 1 - j = (bs.length - 1 - j) + 1 := by omega
      simp only [hj, hj', if_true, e, List.getD_cons_succ]
    · by_cases hj2 : j = bs.length
      · subst hj2
        simp [testBit_two_mul_add _ _ _ h1]
      · have hj' : ¬ (j < bs.length + 1) := by omega
        have hm : ¬ (j - bs.length = 0) := by omega
        have e : j - bs.length - 1 = j - (bs.length + 1) := by omega
        simp only [hj, hj', if_false, testBit_two_mul_add _ _ _ h1, hm, e]

theorem draw_testBit (step : Nat → Nat × Nat) (hbit : ∀ r, (step r).2 ≤ 1) (r k : Nat)
    (hwin : ∀ i, i < 16 → (outBits step 16 r).getD i 0 = (r.testBit (i + 1)).toNat)
    (h1 : 1 ≤ k) (h16 : k ≤ 16) :
    (drawLoop step 16 r 0).2.testBit (16 - k) = r.testBit k := by
  rw [(drawLoop_pack_eq step hbit r).2.1, packFold,
    foldl_pack_testBit _ (outBits_le_one step hbit 16 r), outBits_length]
  have hj : 16 - k < 16 := by omega
  have e : 16 - 1 - (16 - k) = k - 1 := by omega
  have e2 : k - 1 + 1 = k := by omega
  rw [if_pos hj, e, hwin (k - 1) (by omega), e2]
  cases r.testBit k <;> decide

theorem draw_sum (step : Nat → Nat × Nat) (hbit : ∀ r, (step r).2 ≤ 1) (r : Nat)
    (hwin : ∀ i, i < 16 → (outBits step 16 r).getD i 0 = (r.testBit (i + 1)).toNat) :
    (drawLoop step 16 r 0).2
      = ∑ i in Finset.range 16, (r.testBit (i + 1)).toNat * 2 ^ (15 - i) := by
  rw [(drawLoop_pack_eq step hbit r).1, packSum]
  exact Finset.sum_congr rfl (fun i hi => by rw [hwin i (Finset.mem_range.mp hi)])

/-- C19: for every 32-bit register `r` and `k = 1, ..., 16`, the `k`-th bit
that 16 calls of `LFSRa` (of `LFSRb`) return is bit `k` of `r`, and bit
`16 - k` of the number drawn is bit `k` of `r`: the number is the sum of
`bit (i + 1) of r * 2 ^ (15 - i)`, the reversal of the bits 1 to 16 of `r`,
in which no feedback bit takes part. -/
theorem draw_is_reversed_window (r : Nat) (_h : r < 2 ^ 32) :
    (∀ k, 1 ≤ k → k ≤ 16 →
      (outBits LFSRa 16 r).getD (k - 1) 0 = (r.testBit k).toNat ∧
      (outBits LFSRb 16 r).getD (k - 1) 0 = (r.testBit k).toNat) ∧
    (∀ k, 1 ≤ k → k ≤ 16 →
      (drawLoop LFSRa 16 r 0).2.testBit (16 - k) = r.testBit k ∧
      (drawLoop LFSRb 16 r 0).2.testBit (16 - k) = r.testBit k) ∧
    (drawLoop LFSRa 16 r 0).2
      = ∑ i in Finset.range 16, (r.testBit (i + 1)).toNat * 2 ^ (15 - i) ∧
    (drawLoop LFSRb 16 r 0).2
      = ∑ i in Finset.range 16, (r.testBit (i + 1)).toNat * 2 ^ (15 - i) := by
  have wa : ∀ i, i < 16 → (outBits LFSRa 16 r).getD i 0 = (r.testBit (i + 1)).toNat :=
    fun i hi => outBits_LFSRa_getD 16 r i (by decide) hi
  have wb : ∀ i, i < 16 → (outBits LFSRb 16 r).getD i 0 = (r.testBit (i + 1)).toNat :=
    fun i hi => outBits_LFSRb_getD 16 r i (by decide) hi
  refine ⟨fun k h1 h16 => ?_, fun k h1 h16 => ?_, ?_, ?_⟩
  · have e : k - 1 + 1 = k := by omega
    have ha := wa (k - 1) (by omega)
    have hb := wb (k - 1) (by omega)
    rw [e] at ha hb
    exact ⟨ha, hb⟩
  · exact ⟨draw_testBit LFSRa LFSRa_ret_le_one r k wa h1 h16,
      draw_testBit LFSRb LFSRb_ret_le_one r k wb h1 h16⟩
  · exact draw_sum LFSRa LFSRa_ret_le_one r wa
  · exact draw_sum LFSRb LFSRb_ret_le_one r wb

theorem draw_is_reversed_window_witness :
    (0x89ABCDEF : Nat) < 2 ^ 32 ∧
    (∀ k, 1 ≤ k → k ≤ 16 →
      (drawLoop LFSRa 16 0x89ABCDEF 0).2.testBit (16 - k) = (0x89ABCDEF : Nat).testBit k ∧
      (drawLoop LFSRb 16 0x89ABCDEF 0).2.testBit (16 - k) = (0x89ABCDEF : Nat).testBit k) :=
  ⟨by decide, (draw_is_reversed_window 0x89ABCDEF (by decide)).2.1⟩

/-! ## Output shape -/

theorem symbolStep_loopAt (name : List Char) (ra rb i : Nat) (p : Int) :
    symbolStep name (loopAt ra rb i p)
      = (loopAt ra rb (i + 1) (if p - 1 = 0 then 5 else p - 1),
          symAt name ra rb i ++ (if p - 1 = 0 then [' '] else [])) := by
  have ea : (drawLoop LFSRa 16 (stepN LFSRa (16 * i) ra) 0).1
      = stepN LFSRa (16 * (i + 1)) ra := by
    rw [drawLoop_fst, Nat.mul_succ, stepN_add]
  have eb : (drawLoop LFSRb 16 (stepN LFSRb (16 * i) rb) 0).1
      = stepN LFSRb (16 * (i + 1)) rb := by
    rw [drawLoop_fst, Nat.mul_succ, stepN_add]
  unfold symbolStep loopAt symAt
  by_cases h : p - 1 = 0
  · simp only [h, if_true, ea, eb]
  · simp only [h, if_false, ea, eb, List.append_nil]

theorem lineLoop_group (name : List Char) (ra rb i : Nat) :
    lineLoop name 5 (loopAt ra rb i 5) = (loopAt ra rb (i + 5) 5, groupText name ra rb i) := by
  simp only [lineLoop, symbolStep_loopAt, groupText]
  norm_num [List.append_assoc]

theorem lineLoop_add (name : List Char) (a b : Nat) (s : Loop) :
    lineLoop name (a + b) s
      = ((lineLoop name b (lineLoop name a s).1).1,
          (lineLoop name a s).2 ++ (lineLoop name b (lineLoop name a s).1).2) := by
  induction a generalizing s with
  | zero => simp [lineLoop]
  | succ a ih =>
    rw [Nat.add_right_comm]
    simp only [lineLoop, ih, List.append_assoc]

theorem lineLoop_line (name : List Char) (ra rb j : Nat) :
    lineLoop name 25 (loopAt ra rb (25 * j) 5)
      = (loopAt ra rb (25 * (j + 1)) 5,
          groupText name ra rb (25 * j) ++ groupText name ra rb (25 * j + 5)
            ++ groupText name ra rb (25 * j + 10) ++ groupText name ra rb (25 * j + 15)
            ++ groupText name ra rb (25 * j + 20)) := by
  change lineLoop name (5 + (5 + (5 + (5 + 5)))) _ = _
  simp only [lineLoop_add, lineLoop_group]
  simp only [Nat.add_assoc, Nat.reduceAdd, List.append_assoc, Nat.mul_succ]

theorem blockLoop_zero (name : List Char) (s : Loop) : blockLoop name 0 s = [] := rfl

set_option maxRecDepth 100000 in
theorem blockLoop_succ (name : List Char) (k : Nat) (s : Loop) :
    blockLoop name (k + 1) s
      = (lineLoop name 25 s).2 ++ ['\n'] ++ blockLoop name k (lineLoop name 25 s).1 := rfl

theorem blockLoop_page (name : List Char) (ra rb k j : Nat) :
    pageText name ra rb j ++ blockLoop name k (loopAt ra rb (25 * j) 5)
      = pageText name ra rb (j + k) := by
  induction k generalizing j with
  | zero =>
    rw [Nat.add_zero, blockLoop_zero, List.append_nil]
  | succ k ih =>
    have e : j + (k + 1) = (j + 1) + k := by omega
    rw [e, ← ih (j + 1), blockLoop_succ, lineLoop_line, pageText, lineText]
    simp only [List.append_assoc]

theorem blockLoopEnd_loopAt (name : List Char) (ra rb k j : Nat) :
    blockLoopEnd name k (loopAt ra rb (25 * j) 5) = loopAt ra rb (25 * (j + k)) 5 := by
  induction k generalizing j with
  | zero =>
    rw [Nat.add_zero, blockLoopEnd]
  | succ k ih =>
    have e : j + (k + 1) = (j + 1) + k := by omega
    rw [e, ← ih (j + 1), blockLoopEnd, lineLoop_line]

theorem loopAt_zero (ra rb : Nat) (p : Int) :
    loopAt ra rb 0 p = { ra := ra, rb := rb, pspace := p } := rfl

theorem symAt_single (name : List Char) (ra rb i : Nat)
    (hname : name = "cr3n".toList ∨ name = "cr3l".toList ∨ name = "cr3h".toList) :
    ∃ c, symAt name ra rb i = [c] ∧ c ≠ ' ' ∧ c ≠ '\n' := by
  obtain ⟨m1, m2, m3⟩ := showNum_mod ((drawLoop LFSRa 16 (stepN LFSRa (16 * i) ra) 0).2
    ^^^ (drawLoop LFSRb 16 (stepN LFSRb (16 * i) rb) 0).2)
  unfold symAt
  have hd : ∀ d, d < 10 → digitSym d ≠ ' ' ∧ digitSym d ≠ '\n' := by decide
  have hl : ∀ d, d < 26 → letterSym d ≠ ' ' ∧ letterSym d ≠ '\n' := by decide
  have hh : ∀ d, d < 16 → hexSym d ≠ ' ' ∧ hexSym d ≠ '\n' := by decide
  rcases hname with rfl | rfl | rfl
  · rw [m1]
    exact ⟨_, (showNum_digit _ (Nat.mod_lt _ (by decide))).1, hd _ (Nat.mod_lt _ (by decide))⟩
  · rw [m2]
    exact ⟨_, (showNum_letter _ (Nat.mod_lt _ (by decide))).1, hl _ (Nat.mod_lt _ (by decide))⟩
  · rw [m3]
    exact ⟨_, (showNum_hex _ (Nat.mod_lt _ (by decide))).1, hh _ (Nat.mod_lt _ (by decide))⟩

theorem groupText_shape (name : List Char) (ra rb i : Nat)
    (hname : name = "cr3n".toList ∨ name = "cr3l".toList ∨ name = "cr3h".toList) :
    (groupText name ra rb i).length = 6 ∧ (groupText name ra rb i).count '\n' = 0 := by
  obtain ⟨c0, e0, _, n0⟩ := symAt_single name ra rb i hname
  obtain ⟨c1, e1, _, n1⟩ := symAt_single name ra rb (i + 1) hname
  obtain ⟨c2, e2, _, n2⟩ := symAt_single name ra rb (i + 2) hname
  obtain ⟨c3, e3, _, n3⟩ := symAt_single name ra rb (i + 3) hname
  obtain ⟨c4, e4, _, n4⟩ := symAt_single name ra rb (i + 4) hname
  have hs : (' ' : Char) ≠ '\n' := by decide
  rw [groupText, e0, e1, e2, e3, e4]
  constructor
  · rfl
  · simp only [List.cons_append, List.nil_append]
    rw [List.count_cons_of_ne n0.symm, List.count_cons_of_ne n1.symm,
      List.count_cons_of_ne n2.symm, List.count_cons_of_ne n3.symm,
      List.count_cons_of_ne n4.symm, List.count_cons_of_ne hs.symm, List.count_nil]

theorem lineText_shape (name : List Char) (ra rb j : Nat)
    (hname : name = "cr3n".toList ∨ name = "cr3l".toList ∨ name = "cr3h".toList) :
    (lineText name ra rb j).length = 31 ∧ (lineText name ra rb j).count '\n' = 1 := by
  obtain ⟨l0, k0⟩ := groupText_shape name ra rb (25 * j) hname
  obtain ⟨l1, k1⟩ := groupText_shape name ra rb (25 * j + 5) hname
  obtain ⟨l2, k2⟩ := groupText_shape name ra rb (25 * j + 10) hname
  obtain ⟨l3, k3⟩ := groupText_shape name ra rb (25 * j + 15) hname
  obtain ⟨l4, k4⟩ := groupText_shape name ra rb (25 * j + 20) hname
  rw [lineText]
  constructor
  · simp only [List.length_append, l0, l1, l2, l3, l4, List.length_singleton]
  · simp only [List.count_append, k0, k1, k2, k3, k4, List.count_singleton_self]

theorem pageText_shape (name : List Char) (ra rb n : Nat)
    (hname : name = "cr3n".toList ∨ name = "cr3l".toList ∨ name = "cr3h".toList) :
    (pageText name ra rb n).length = 31 * n ∧ (pageText name ra rb n).count '\n' = n := by
  induction n with
  | zero => exact ⟨rfl, rfl⟩
  | succ n ih =>
    obtain ⟨l, k⟩ := lineText_shape name ra rb n hname
    rw [pageText, List.length_append, List.count_append, ih.1, ih.2, l, k]
    exact ⟨by omega, rfl⟩

/-- C14: under the name `cr3n`, `cr3l` or `cr3h`, for a key of 16 hex digits
that is not aborted and `n` the block count (20 when the argument is absent),
the run ends with status 0 and standard output is `n` lines, each one five
groups of five symbols with one space after every group and a newline at the
end; every symbol is one character that is neither a space nor a newline, so
the output has `31 * n` characters, `n` of them newlines; and each generator
has been called `16 * 25 * n` times when the output loops are left. -/
theorem output_shape (argv0 key : List Char) (d : Nat → Nat) (rest : List (List Char))
    (D : Derived) (ra rb : Nat) (_hk : IsHexKey key d)
    (hname : basename argv0 = "cr3n".toList ∨ basename argv0 = "cr3l".toList ∨
      basename argv0 = "cr3h".toList)
    (hrest : rest.length ≤ 1) (hD : derive key = some D) (hA : warmA D = some ra)
    (hB : warmB D = some rb) (hra : ra ≠ 0) (hrb : rb ≠ 0) :
    main argv0 (key :: rest)
      = .exited
          (pageText (basename argv0) ra rb
            (if rest.length = 1 then atoi (rest.getD 0 []) else 20).toNat) [] 0 ∧
    (rest = [] → (if rest.length = 1 then atoi (rest.getD 0 []) else 20).toNat = 20) ∧
    (∀ n, (pageText (basename argv0) ra rb n).length = 31 * n ∧
      (pageText (basename argv0) ra rb n).count '\n' = n) ∧
    (∀ i, ∃ c, symAt (basename argv0) ra rb i = [c] ∧ c ≠ ' ' ∧ c ≠ '\n') ∧
    (∀ n, blockLoopEnd (basename argv0) n { ra := ra, rb := rb, pspace := 5 }
      = { ra := stepN LFSRa (16 * 25 * n) ra, rb := stepN LFSRb (16 * 25 * n) rb,
          pspace := 5 }) := by
  have hne : basename argv0 ≠ "cr3".toList := by
    rcases hname with h | h | h <;> rw [h] <;> decide
  refine ⟨?_, ?_, fun n => pageText_shape _ ra rb n hname,
    fun i => symAt_single _ ra rb i hname, fun n => ?_⟩
  · rw [main_of_warm argv0 key rest D ra rb hne hrest hD hA hB,
      if_neg (fun h => h.elim hra hrb)]
    have h := blockLoop_page (basename argv0) ra rb
      (if rest.length = 1 then atoi (rest.getD 0 []) else 20).toNat 0
    rw [Nat.zero_add, Nat.mul_zero, loopAt_zero] at h
    rw [← h]
    rfl
  · rintro rfl
    rfl
  · have h := blockLoopEnd_loopAt (basename argv0) ra rb n 0
    rw [Nat.zero_add, Nat.mul_zero, loopAt_zero] at h
    rw [h, loopAt, Nat.mul_assoc]

theorem output_shape_witness :
    IsHexKey "0000001100000030".toList (fun i => if i = 6 ∨ i = 7 then 1 else if i = 14 then 3 else 0) ∧
    (basename "./cr3n".toList = "cr3n".toList ∨ basename "./cr3n".toList = "cr3l".toList ∨
      basename "./cr3n".toList = "cr3h".toList) ∧
    ["3".toList].length ≤ 1 ∧
    derive "0000001100000030".toList
      = some { precount := 0x11, initvala := 0x03000000, initvalb := 0x03000003 } ∧
    warmA { precount := 0x11, initvala := 0x03000000, initvalb := 0x03000003 }
      = some (stepN LFSRa 126 0x03000000) ∧
    warmB { precount := 0x11, initvala := 0x03000000, initvalb := 0x03000003 }
      = some (stepN LFSRb 433 0x03000003) ∧
    stepN LFSRa 126 0x03000000 ≠ 0 ∧ stepN LFSRb 433 0x03000003 ≠ 0 ∧
    main "./cr3n".toList ("0000001100000030".toList :: ["3".toList])
      = .exited
          (pageText (basename "./cr3n".toList) (stepN LFSRa 126 0x03000000)
            (stepN LFSRb 433 0x03000003)
            (if ["3".toList].length = 1 then atoi (["3".toList].getD 0 []) else 20).toNat)
          [] 0 :=
  ⟨⟨rfl, by decide⟩, by decide, by decide, by decide, by decide!, by decide!, by decide!,
    by decide!,
    (output_shape "./cr3n".toList "0000001100000030".toList
      (fun i => if i = 6 ∨ i = 7 then 1 else if i = 14 then 3 else 0) ["3".toList]
      { precount := 0x11, initvala := 0x03000000, initvalb := 0x03000003 }
      (stepN LFSRa 126 0x03000000) (stepN LFSRb 433 0x03000003)
      ⟨rfl, by decide⟩ (by decide) (by decide) (by decide) (by decide!) (by decide!)
      (by decide!) (by decide!)).1⟩

end Cr3

